import Mathlib

/-!
# Receipt processor: points calculation and receipt store

A shallow embedding of `src/receipt_processor/main.go`.

* Go strings are byte sequences (`GoString`).
* Go `int` is the 64-bit two's complement integer: values are `Int`, and every
  arithmetic result is reduced by `wrap64`.
* Go `float64` values are `F64`: NaN, the two infinities, or a finite value held
  exactly as an integer number of units of `2^-1074` (the smallest subnormal).
  The sign of zero is not kept: `==`, `int(..)`, `math.Mod(..) == 0` and
  `math.Ceil` followed by `int(..)` cannot tell `-0` from `+0`.
* The result of `int(f)` for a float outside the range of `int` is
  implementation-dependent in Go; it is the parameter `FloatConv`.
* A run-time panic is the result `none`.
-/

set_option autoImplicit false

namespace ReceiptProcessor

/-! ## Strings -/

/-- A Go string: an immutable sequence of bytes. -/
abbrev GoString := List UInt8

/-- The bytes of a string literal (Go source text is UTF-8). -/
def utf8 (s : String) : GoString := s.data.flatMap String.utf8EncodeChar

/-- The byte of an ASCII character constant such as `'-'`. -/
def ch (c : Char) : UInt8 := c.toNat.toUInt8

/-- Go `len(s)` for a string. -/
def len {α : Type} (s : List α) : Int := (s.length : Int)

/-! ## Machine integers -/

def minInt64 : Int := -(2 ^ 63)

def maxInt64 : Int := 2 ^ 63 - 1

/-- Reduction of an integer result to the 64-bit two's complement range. -/
def wrap64 (x : Int) : Int := (x + 2 ^ 63) % 2 ^ 64 - 2 ^ 63

/-! ## float64 -/

/-- The number of units of `2^-1074` in `1.0`. -/
def one : Nat := 2 ^ 1074

/-- A `float64` value; `fin u` is the finite value `u * 2^-1074`. -/
inductive F64 where
  | nan : F64
  | inf (neg : Bool) : F64
  | fin (u : Int) : F64
  deriving DecidableEq, Repr

/-- The least `j` at or above the given one with `n < 2^(2^j)`; `fuel` bounds
the search. -/
def sizeExp : Nat → Nat → Nat → Nat
  | 0, j, _ => j
  | fuel + 1, j, n => if n < 2 ^ 2 ^ j then j else sizeExp fuel (j + 1) n

/-- Number of binary digits of `n`, for `n < 2^(2^j)`, by bisection. -/
def bitLenAux : Nat → Nat → Nat
  | 0, n => if n = 0 then 0 else 1
  | j + 1, n =>
      if n < 2 ^ 2 ^ j then bitLenAux j n else 2 ^ j + bitLenAux j (n / 2 ^ 2 ^ j)

/-- Number of binary digits of `n` (0 for 0). -/
def bitLen (n : Nat) : Nat := bitLenAux (sizeExp n 0 n) n

/-- The integer nearest to `num / den`, ties to the even one. -/
def roundHalfEven (num den : Nat) : Nat :=
  let q := num / den
  let r := num % den
  if den < 2 * r ∨ (den = 2 * r ∧ q % 2 = 1) then q + 1 else q

/-- Rounding of the non-negative rational `num / den` (in units of `2^-1074`) to
the nearest number with a 53-bit significand, ties to even (IEEE 754
round-to-nearest-even, before the overflow test). -/
def roundUnits (num den : Nat) : Nat :=
  let k := bitLen (num / den) - 53
  roundHalfEven num (den * 2 ^ k) * 2 ^ k

/-- The largest finite `float64`, in units: `(2^53 - 1) * 2^971`. -/
def maxUnits : Nat := (2 ^ 53 - 1) * 2 ^ 2045

/-- The `float64` nearest to `(-1)^neg * num / den` units, and whether the
magnitude overflowed to an infinity. -/
def F64.round (neg : Bool) (num den : Nat) : F64 × Bool :=
  let u := roundUnits num den
  if u ≤ maxUnits then (F64.fin (if neg then -(u : Int) else (u : Int)), false)
  else (F64.inf neg, true)

/-- Go `float64(i)` for an `int`. -/
def F64.ofInt (i : Int) : F64 :=
  (F64.round (decide (i < 0)) (i.natAbs * one) 1).1

/-- Go `x == y` on `float64`. -/
def F64.eq : F64 → F64 → Bool
  | F64.fin u, F64.fin v => decide (u = v)
  | F64.inf a, F64.inf b => a == b
  | _, _ => false

/-- Go `x * y` on `float64`. -/
def F64.mul : F64 → F64 → F64
  | F64.fin u, F64.fin v =>
      (F64.round (decide (u < 0) != decide (v < 0)) (u.natAbs * v.natAbs) one).1
  | F64.inf a, F64.inf b => F64.inf (a != b)
  | F64.inf a, F64.fin v => if v = 0 then F64.nan else F64.inf (a != decide (v < 0))
  | F64.fin u, F64.inf b => if u = 0 then F64.nan else F64.inf (decide (u < 0) != b)
  | _, _ => F64.nan

/-- Go `math.Ceil(x)`. -/
def F64.Ceil : F64 → F64
  | F64.fin u => F64.fin (-((-u) / (one : Int)) * one)
  | x => x

/-- Go `math.Mod(x, y)`: the remainder of `x / y` with the sign of `x`. -/
def F64.Mod : F64 → F64 → F64
  | F64.fin u, F64.fin v => if v = 0 then F64.nan else F64.fin (Int.tmod u v)
  | F64.fin u, F64.inf _ => F64.fin u
  | _, _ => F64.nan

/-- What `int(f)` yields when `f` is NaN, infinite or outside the `int` range. -/
abbrev FloatConv := F64 → Int

/-- Go on amd64: the conversion instruction yields `0x8000000000000000`. -/
def amd64 : FloatConv := fun _ => minInt64

/-- Go on arm64: the conversion saturates, and NaN gives 0. -/
def arm64 : FloatConv
  | F64.nan => 0
  | F64.inf neg => if neg then minInt64 else maxInt64
  | F64.fin u => if u < 0 then minInt64 else maxInt64

/-- Go `int(f)`: truncation toward zero when the result fits. -/
def F64.toInt (cv : FloatConv) : F64 → Int
  | F64.fin u =>
      let t := Int.tdiv u (one : Int)
      if minInt64 ≤ t ∧ t ≤ maxInt64 then t else wrap64 (cv (F64.fin u))
  | x => wrap64 (cv x)

/-- The constant `0.25`. -/
def quarter : F64 := F64.fin (2 ^ 1072)

/-- The constant `0.2` as a `float64`. -/
def fifth : F64 := (F64.round false (one * 2) 10).1

/-! ## strconv

`ParseFloat(s, 64)` and `Atoi(s)` after the Go standard library
(`strconv/atof.go`, `strconv/atoi.go`), for a 64-bit `int`. `ParseFloat` keeps
every digit of the text, so the value it rounds is the exact one: the library
reaches the same correctly rounded result from the first 19 digits and a
truncation flag, with an arbitrary-precision fallback. -/

/-- The `Err` field of a `*strconv.NumError`. -/
inductive NumError where
  | ErrSyntax : NumError
  | ErrRange : NumError
  deriving DecidableEq, Repr

/-- The library's `lower(c)`: `c | ('x' ^ 'X')`. -/
def lower (c : UInt8) : UInt8 := c ||| 0x20

/-- Whether `'0' <= c && c <= '9'`. -/
def isDigit (c : UInt8) : Bool := decide (ch '0' ≤ c ∧ c ≤ ch '9')

/-- Whether `'a' <= lower(c) && lower(c) <= 'f'`. -/
def isHexLetter (c : UInt8) : Bool := decide (ch 'a' ≤ lower c ∧ lower c ≤ ch 'f')

/-- The library's `commonPrefixLenIgnoreCase(s, prefix)`. -/
def commonPrefixLenIgnoreCase : GoString → GoString → Nat
  | c :: s, p :: pre =>
      let c := if ch 'A' ≤ c ∧ c ≤ ch 'Z' then c + (ch 'a' - ch 'A') else c
      if c ≠ p then 0 else commonPrefixLenIgnoreCase s pre + 1
  | _, _ => 0

/-- The `'i', 'I'` case of `special`, entered directly or by `fallthrough`
after a sign. -/
def specialInf (neg : Bool) (nsign : Nat) (s : GoString) : Option (F64 × Nat) :=
  let n := commonPrefixLenIgnoreCase s (utf8 "infinity")
  let n := if 3 < n ∧ n < 8 then 3 else n
  if n = 3 ∨ n = 8 then some (F64.inf neg, nsign + n) else none

/-- The library's `special(s)`: the value and the number of bytes read when `s`
starts with an infinity or NaN. -/
def special (s : GoString) : Option (F64 × Nat) :=
  match s with
  | [] => none
  | c :: rest =>
      if c = ch '+' ∨ c = ch '-' then specialInf (decide (c = ch '-')) 1 rest
      else if c = ch 'i' ∨ c = ch 'I' then specialInf false 0 s
      else if c = ch 'n' ∨ c = ch 'N' then
        if commonPrefixLenIgnoreCase s (utf8 "nan") = 3 then some (F64.nan, 3) else none
      else none

/-- The loop of `underscoreOK`; `saw` is the last kind of character seen. -/
def underscoreOKLoop (hex : Bool) : GoString → Char → Bool
  | [], saw => saw != '_'
  | c :: s, saw =>
      if isDigit c || (hex && isHexLetter c) then underscoreOKLoop hex s '0'
      else if c = ch '_' then
        if saw != '0' then false else underscoreOKLoop hex s '_'
      else if saw == '_' then false
      else underscoreOKLoop hex s '!'

/-- The library's `underscoreOK(s)`: underscores only between digits, or
between a base prefix and a digit. -/
def underscoreOK (s : GoString) : Bool :=
  let s := match s with
    | c :: t => if c = ch '-' ∨ c = ch '+' then t else s
    | [] => s
  match s with
  | c0 :: c1 :: t =>
      if c0 = ch '0' ∧ (lower c1 = ch 'b' ∨ lower c1 = ch 'o' ∨ lower c1 = ch 'x') then
        underscoreOKLoop (decide (lower c1 = ch 'x')) t '0'
      else underscoreOKLoop false s '^'
  | _ => underscoreOKLoop false s '^'

/-- The variables of the digit loop of `readFloat`. -/
structure Scan where
  mantissa : Nat
  nd : Nat
  dp : Int
  sawdot : Bool
  sawdigits : Bool
  underscores : Bool
  deriving DecidableEq, Repr

/-- The digit loop of `readFloat`: the state at the `break`, and the text from
there on. All digits go into `mantissa`. -/
def readDigits (hex : Bool) : GoString → Scan → Scan × GoString
  | [], st => (st, [])
  | c :: s, st =>
      if c = ch '_' then readDigits hex s { st with underscores := true }
      else if c = ch '.' then
        if st.sawdot then (st, c :: s)
        else readDigits hex s { st with sawdot := true, dp := st.nd }
      else if isDigit c then
        if c = ch '0' ∧ st.nd = 0 then
          readDigits hex s { st with sawdigits := true, dp := st.dp - 1 }
        else
          readDigits hex s { st with
            sawdigits := true, nd := st.nd + 1,
            mantissa := st.mantissa * (if hex then 16 else 10) + (c - ch '0').toNat }
      else if hex ∧ isHexLetter c then
        readDigits hex s { st with
          sawdigits := true, nd := st.nd + 1,
          mantissa := st.mantissa * 16 + ((lower c - ch 'a').toNat + 10) }
      else (st, c :: s)

/-- The exponent loop of `readFloat`: the exponent (no longer extended once it
has reached 10000), whether an underscore was seen, and the text left. -/
def readExp : GoString → Nat → Bool → Nat × Bool × GoString
  | [], e, us => (e, us, [])
  | c :: s, e, us =>
      if c = ch '_' then readExp s e true
      else if isDigit c then
        readExp s (if e < 10000 then e * 10 + (c - ch '0').toNat else e) us
      else (e, us, c :: s)

/-- What `readFloat` returns when `ok`: the number is
`(-1)^neg * mantissa * 10^exp`, or `* 2^exp` when `hex`; `rest` is the text
after the number (`s[i:]`). -/
structure FloatText where
  mantissa : Nat
  exp : Int
  neg : Bool
  hex : Bool
  rest : GoString
  deriving DecidableEq, Repr

/-- The end of `readFloat`: the exponent of the mantissa, and the check of the
underscores in the text read. -/
def readFloatEnd (s : GoString) (neg hex : Bool) (st : Scan) (dp : Int)
    (underscores : Bool) (rest : GoString) : Option FloatText :=
  let ndMant : Int := if hex then (st.nd : Int) * 4 else (st.nd : Int)
  let exp : Int := if st.mantissa ≠ 0 then dp - ndMant else 0
  if underscores && !underscoreOK (s.take (s.length - rest.length)) then none
  else some ⟨st.mantissa, exp, neg, hex, rest⟩

/-- The library's `readFloat(s)`; `none` is `ok == false`. -/
def readFloat (s : GoString) : Option FloatText :=
  match s with
  | [] => none
  | c :: t =>
    let neg := decide (c = ch '-')
    let s1 := if c = ch '+' ∨ c = ch '-' then t else s
    let hex := match s1 with
      | c0 :: c1 :: _ :: _ => decide (c0 = ch '0' ∧ lower c1 = ch 'x')
      | _ => false
    let s2 := if hex then s1.drop 2 else s1
    let (st, s3) := readDigits hex s2 ⟨0, 0, 0, false, false, false⟩
    if !st.sawdigits then none
    else
      let dp : Int := if st.sawdot then st.dp else (st.nd : Int)
      let dp : Int := if hex then dp * 4 else dp
      let expChar := if hex then ch 'p' else ch 'e'
      match s3 with
      | [] => if hex then none else readFloatEnd s neg hex st dp st.underscores []
      | x :: s4 =>
        if lower x = expChar then
          match s4 with
          | [] => none
          | d :: s5 =>
            let esign : Int := if d = ch '-' then -1 else 1
            let s6 := if d = ch '+' ∨ d = ch '-' then s5 else s4
            match s6 with
            | [] => none
            | e0 :: _ =>
              if !isDigit e0 then none
              else
                let (e, us, s7) := readExp s6 0 st.underscores
                readFloatEnd s neg hex st (dp + (e : Int) * esign) us s7
        else if hex then none
        else readFloatEnd s neg hex st dp st.underscores s3

/-- The `float64` nearest to the number read, and whether it overflowed. -/
def FloatText.toF64 (r : FloatText) : F64 × Bool :=
  if r.hex then
    let e := r.exp + 1074
    if 0 ≤ e then F64.round r.neg (r.mantissa * 2 ^ e.toNat) 1
    else F64.round r.neg r.mantissa (2 ^ (-e).toNat)
  else
    if 0 ≤ r.exp then F64.round r.neg (r.mantissa * 10 ^ r.exp.toNat * one) 1
    else F64.round r.neg (r.mantissa * one) (10 ^ (-r.exp).toNat)

/-- Go `strconv.ParseFloat(s, 64)`: the value and the error (`none` is `nil`).
A syntax error comes with 0, a range error with an infinity. -/
def ParseFloat (s : GoString) : F64 × Option NumError :=
  match special s with
  | some (v, n) =>
      if n ≠ s.length then (F64.fin 0, some NumError.ErrSyntax) else (v, none)
  | none =>
      match readFloat s with
      | none => (F64.fin 0, some NumError.ErrSyntax)
      | some r =>
          if r.rest ≠ [] then (F64.fin 0, some NumError.ErrSyntax)
          else
            let (f, ovf) := r.toF64
            (f, if ovf then some NumError.ErrRange else none)

/-- The digit loop of `ParseUint(s, 10, 64)`. -/
def parseUintLoop : GoString → Nat → Nat × Option NumError
  | [], n => (n, none)
  | c :: s, n =>
      if !isDigit c then (0, some NumError.ErrSyntax)
      else if n ≥ (2 ^ 64 - 1) / 10 + 1 then (2 ^ 64 - 1, some NumError.ErrRange)
      else
        let n1 := n * 10 + (c - ch '0').toNat
        if n1 > 2 ^ 64 - 1 then (2 ^ 64 - 1, some NumError.ErrRange)
        else parseUintLoop s n1

/-- Go `strconv.ParseUint(s, 10, 64)`. -/
def ParseUint (s : GoString) : Nat × Option NumError :=
  if s = [] then (0, some NumError.ErrSyntax) else parseUintLoop s 0

/-- Go `strconv.ParseInt(s, 10, 0)`. -/
def ParseInt (s : GoString) : Int × Option NumError :=
  match s with
  | [] => (0, some NumError.ErrSyntax)
  | c :: t =>
    let neg := decide (c = ch '-')
    let s1 := if c = ch '+' ∨ c = ch '-' then t else s
    let (un, err) := ParseUint s1
    if err = some NumError.ErrSyntax then (0, err)
    else if !neg ∧ un ≥ 2 ^ 63 then (2 ^ 63 - 1, some NumError.ErrRange)
    else if neg ∧ un > 2 ^ 63 then (-(2 ^ 63), some NumError.ErrRange)
    else (if neg then -(un : Int) else (un : Int), none)

/-- The digit loop of the fast path of `Atoi`; `none` is a syntax error. -/
def atoiFastLoop : GoString → Int → Option Int
  | [], n => some n
  | c :: s, n =>
      let d := c - ch '0'
      if d > 9 then none else atoiFastLoop s (n * 10 + (d.toNat : Int))

/-- Go `strconv.Atoi(s)`: the value and the error (`none` is `nil`). -/
def Atoi (s : GoString) : Int × Option NumError :=
  match s with
  | [] => ParseInt s
  | c :: t =>
    if s.length < 19 then
      let s1 := if c = ch '-' ∨ c = ch '+' then t else s
      if s1 = [] then (0, some NumError.ErrSyntax)
      else
        match atoiFastLoop s1 0 with
        | none => (0, some NumError.ErrSyntax)
        | some n => (if c = ch '-' then -n else n, none)
    else ParseInt s

/-! ## unicode/utf8, strings, regexp -/

/-- The rune `utf8.RuneError`, U+FFFD. -/
def RuneError : Nat := 0xFFFD

/-- Whether `b` is a UTF-8 continuation byte (`locb <= b && b <= hicb`). -/
def isCont (b : UInt8) : Bool := decide (0x80 ≤ b ∧ b ≤ 0xBF)

/-- The entry of the table `first` for a leading byte at or above `0x80`:
the length of the sequence and the range accepted for its second byte;
`none` for a byte that starts no sequence. -/
def firstInfo (b : UInt8) : Option (Nat × UInt8 × UInt8) :=
  if 0xC2 ≤ b ∧ b ≤ 0xDF then some (2, 0x80, 0xBF)
  else if b = 0xE0 then some (3, 0xA0, 0xBF)
  else if 0xE1 ≤ b ∧ b ≤ 0xEC then some (3, 0x80, 0xBF)
  else if b = 0xED then some (3, 0x80, 0x9F)
  else if 0xEE ≤ b ∧ b ≤ 0xEF then some (3, 0x80, 0xBF)
  else if b = 0xF0 then some (4, 0x90, 0xBF)
  else if 0xF1 ≤ b ∧ b ≤ 0xF3 then some (4, 0x80, 0xBF)
  else if b = 0xF4 then some (4, 0x80, 0x8F)
  else none

/-- Go `utf8.DecodeRuneInString(s)`: the first rune and its width in bytes;
`(RuneError, 1)` for an invalid encoding, `(RuneError, 0)` for the empty
string. -/
def DecodeRuneInString (s : GoString) : Nat × Nat :=
  match s with
  | [] => (RuneError, 0)
  | s0 :: t =>
    if s0 < 0x80 then (s0.toNat, 1)
    else
      match firstInfo s0 with
      | none => (RuneError, 1)
      | some (sz, lo, hi) =>
        if s.length < sz then (RuneError, 1)
        else
          match t with
          | [] => (RuneError, 1)
          | s1 :: t1 =>
            if s1 < lo ∨ hi < s1 then (RuneError, 1)
            else if sz ≤ 2 then ((s0 &&& 0x1F).toNat * 64 + (s1 &&& 0x3F).toNat, 2)
            else
              match t1 with
              | [] => (RuneError, 1)
              | s2 :: t2 =>
                if !isCont s2 then (RuneError, 1)
                else if sz ≤ 3 then
                  ((s0 &&& 0x0F).toNat * 4096 + (s1 &&& 0x3F).toNat * 64
                    + (s2 &&& 0x3F).toNat, 3)
                else
                  match t2 with
                  | [] => (RuneError, 1)
                  | s3 :: _ =>
                    if !isCont s3 then (RuneError, 1)
                    else
                      ((s0 &&& 0x07).toNat * 262144 + (s1 &&& 0x3F).toNat * 4096
                        + (s2 &&& 0x3F).toNat * 64 + (s3 &&& 0x3F).toNat, 4)

/-- Go `utf8.RuneStart(b)`: `b` is not a continuation byte. -/
def RuneStart (b : UInt8) : Bool := b &&& 0xC0 != 0x80

/-- The number of bytes from the `start` that `utf8.DecodeLastRuneInString`
settles on to the end of the string, for a string given back to front whose
last byte is not ASCII. -/
def lastRuneSpan (rev : GoString) : Nat :=
  match rev with
  | _ :: b2 :: t2 =>
    if RuneStart b2 then 2
    else match t2 with
      | [] => 2
      | b3 :: t3 =>
        if RuneStart b3 then 3
        else match t3 with
          | [] => 3
          | b4 :: t4 =>
            if RuneStart b4 then 4
            else match t4 with
              | [] => 4
              | _ :: _ => 5
  | _ => 1

/-- Go `utf8.DecodeLastRuneInString(s)`, for `s` given back to front: the last
rune and its width. -/
def DecodeLastRuneInString (rev : GoString) : Nat × Nat :=
  match rev with
  | [] => (RuneError, 0)
  | c :: _ =>
    if c < 0x80 then (c.toNat, 1)
    else
      let k := lastRuneSpan rev
      let (r, size) := DecodeRuneInString (rev.take k).reverse
      if size ≠ k then (RuneError, 1) else (r, size)

/-- Go `unicode.IsSpace(r)`. -/
def IsSpace (r : Nat) : Bool :=
  if r ≤ 0xFF then
    r = 0x09 || r = 0x0A || r = 0x0B || r = 0x0C || r = 0x0D || r = 0x20
      || r = 0x85 || r = 0xA0
  else
    r = 0x1680 || (0x2000 ≤ r && r ≤ 0x200A) || r = 0x2028 || r = 0x2029
      || r = 0x202F || r = 0x205F || r = 0x3000

/-- The table `asciiSpace` of package strings. -/
def asciiSpace (c : UInt8) : Bool :=
  c = ch '\t' || c = ch '\n' || c = 0x0B || c = 0x0C || c = ch '\r' || c = ch ' '

/-- Go `strings.TrimLeftFunc(s, unicode.IsSpace)`: `skip` counts the bytes
still to pass of a rune already seen to be a space. -/
def trimLeftSpace : Nat → GoString → GoString
  | _, [] => []
  | skip + 1, _ :: s => trimLeftSpace skip s
  | 0, c :: s =>
      let (r, size) := DecodeRuneInString (c :: s)
      if IsSpace r then trimLeftSpace (size - 1) s else c :: s

/-- The index `lastIndexFunc(s, unicode.IsSpace, false)` of the last rune that
is not a space, for `s` given back to front; `none` is -1. -/
def lastIndexNotSpace : Nat → GoString → Option Nat
  | _, [] => none
  | skip + 1, _ :: rev => lastIndexNotSpace skip rev
  | 0, c :: rev =>
      let (r, size) := DecodeLastRuneInString (c :: rev)
      if IsSpace r then lastIndexNotSpace (size - 1) rev
      else some ((c :: rev).length - size)

/-- Go `strings.TrimRightFunc(s, unicode.IsSpace)`. -/
def TrimRightFunc (s : GoString) : GoString :=
  match lastIndexNotSpace 0 s.reverse with
  | none => []
  | some i =>
    match s.drop i with
    | [] => s.take (i + 1)
    | c :: t =>
      if c ≥ 0x80 then s.take (i + (DecodeRuneInString (c :: t)).2)
      else s.take (i + 1)

/-- Go `strings.TrimFunc(s, unicode.IsSpace)`. -/
def TrimFunc (s : GoString) : GoString := TrimRightFunc (trimLeftSpace 0 s)

/-- The second loop of `strings.TrimSpace`, over `s[start:]` given back to
front. -/
def trimSpaceStop : GoString → GoString
  | [] => []
  | c :: rev =>
      if c ≥ 0x80 then TrimRightFunc (c :: rev).reverse
      else if asciiSpace c then trimSpaceStop rev
      else (c :: rev).reverse

/-- Go `strings.TrimSpace(s)`: the ASCII fast path from both ends, and the
rune-by-rune functions from the first byte at or above `0x80` on. -/
def TrimSpace : GoString → GoString
  | [] => []
  | c :: s =>
      if c ≥ 0x80 then TrimFunc (c :: s)
      else if asciiSpace c then TrimSpace s
      else trimSpaceStop (c :: s).reverse

/-- Go `strings.Split(s, sep)` for a separator of one byte: the pieces between
the separators, one more than there are separators. -/
def Split (s : GoString) (sep : UInt8) : List GoString :=
  match s with
  | [] => [[]]
  | c :: t =>
    if c = sep then [] :: Split t sep
    else
      match Split t sep with
      | [] => [[c]]
      | piece :: pieces => (c :: piece) :: pieces

/-- Whether a byte matches the expression `[a-zA-Z0-9]`. -/
def alphanumeric (c : UInt8) : Bool :=
  decide ((ch 'a' ≤ c ∧ c ≤ ch 'z') ∨ (ch 'A' ≤ c ∧ c ≤ ch 'Z') ∨ (ch '0' ≤ c ∧ c ≤ ch '9'))

/-- Go `alphanumericRegex.FindAllString(s, -1)` for
`regexp.MustCompile("[a-zA-Z0-9]")`: the successive matches, each one ASCII
character (no byte of a longer or invalid encoding matches). -/
def FindAllString (s : GoString) : List GoString :=
  (s.filter alphanumeric).map (fun c => [c])

/-- Go `strings.TrimPrefix(s, prefix)`. -/
def TrimPrefix (s pre : GoString) : GoString :=
  if pre.isPrefixOf s then s.drop pre.length else s

/-- Go `strings.TrimSuffix(s, suffix)`. -/
def TrimSuffix (s suf : GoString) : GoString :=
  if suf.isSuffixOf s then s.take (s.length - suf.length) else s

/-! ## The program -/

/-- The struct `Item` of main.go. -/
structure Item where
  ShortDescription : GoString
  Price : GoString
  deriving DecidableEq, Repr

/-- The struct `Receipt` of main.go. -/
structure Receipt where
  Retailer : GoString
  PurchaseDate : GoString
  PurchaseTime : GoString
  Total : GoString
  Items : List Item
  deriving DecidableEq, Repr

/-- The body of the loop `for _, item := range receipt.Items` (main.go:93-97). -/
def itemStep (cv : FloatConv) (points : Int) (item : Item) : Int :=
  let trimmedDesc := TrimSpace item.ShortDescription
  if Int.tmod (len trimmedDesc) 3 = 0 then
    let price := (ParseFloat item.Price).1
    wrap64 (points + F64.toInt cv (F64.Ceil (F64.mul price fifth)))
  else points

/-- The function `calculatePoints` of main.go (lines 77-113), statement by
statement; `none` is the run-time panic of an index out of range. -/
def calculatePoints (cv : FloatConv) (receipt : Receipt) : Option Int :=
  let points : Int := 0
  let points := wrap64 (points + len (FindAllString receipt.Retailer))
  let total := (ParseFloat receipt.Total).1
  let points :=
    if F64.eq total (F64.ofInt (F64.toInt cv total)) then wrap64 (points + 50) else points
  let points :=
    if F64.eq (F64.Mod total quarter) (F64.fin 0) then wrap64 (points + 25) else points
  let points := wrap64 (points + wrap64 (Int.tdiv (len receipt.Items) 2 * 5))
  let points := receipt.Items.foldl (itemStep cv) points
  let dateParts := Split receipt.PurchaseDate (ch '-')
  match dateParts[2]? with
  | none => none
  | some d =>
    let day := (Atoi d).1
    let points := if Int.tmod day 2 = 1 then wrap64 (points + 6) else points
    let timeParts := Split receipt.PurchaseTime (ch ':')
    match timeParts[0]? with
    | none => none
    | some h =>
      let hour := (Atoi h).1
      let points := if hour ≥ 14 ∧ hour < 16 then wrap64 (points + 10) else points
      some points

/-- The map `receiptStore` (`map[string]int`): the points stored under each
key, if any. -/
abbrev Store := GoString → Option Int

/-- The initial store, `make(map[string]int)`. -/
def Store.empty : Store := fun _ => none

/-- The assignment `receiptStore[id] = points`. -/
def Store.put (store : Store) (id : GoString) (points : Int) : Store :=
  fun key => if key = id then some points else store key

/-- The lookup `points, exists := receiptStore[id]`. -/
def Store.get (store : Store) (id : GoString) : Int × Bool :=
  match store id with
  | some points => (points, true)
  | none => (0, false)

/-- What a handler leaves on the `http.ResponseWriter`. -/
inductive Response where
  /-- The call `http.Error(w, message, status)`. -/
  | error (message : GoString) (status : Nat) : Response
  /-- Status 200 with the JSON encoding of `ReceiptResponse{ID: id}`. -/
  | receiptResponse (ID : GoString) : Response
  /-- Status 200 with the JSON encoding of `PointsResponse{Points: points}`. -/
  | pointsResponse (Points : Int) : Response
  /-- The handler panicked before writing anything; net/http recovers the
  panic and drops the connection. -/
  | aborted : Response
  deriving DecidableEq, Repr

def StatusBadRequest : Nat := 400

def StatusNotFound : Nat := 404

/-- The handler `processReceipt` of main.go (lines 42-58), as one atomic step on
the store. `decode` is `json.NewDecoder(r.Body).Decode(&receipt)` on the request
body (`none` when it returns an error) and `id` is the string that
`uuid.New().String()` returns in this call. -/
def processReceipt (cv : FloatConv) (decode : GoString → Option Receipt)
    (id : GoString) (body : GoString) (store : Store) : Response × Store :=
  match decode body with
  | none => (Response.error (utf8 "Invalid request payload") StatusBadRequest, store)
  | some receipt =>
    match calculatePoints cv receipt with
    | none => (Response.aborted, store)
    | some points => (Response.receiptResponse id, Store.put store id points)

/-- The handler `getPoints` of main.go (lines 60-75) for the request path
`r.URL.Path`, as one atomic step on the store. -/
def getPoints (path : GoString) (store : Store) : Response × Store :=
  let id := TrimPrefix path (utf8 "/receipts/")
  let id := TrimSuffix id (utf8 "/points")
  let (points, «exists») := Store.get store id
  if !«exists» then
    (Response.error (utf8 "No receipt found for that ID") StatusNotFound, store)
  else (Response.pointsResponse points, store)

/-! ## The points of each rule

What each statement of `calculatePoints` adds to `points`, as a function of
what it reads. `calculatePoints_eq` shows that the score is their sum. -/

/-- The points of main.go:80. -/
def retailerPoints (retailer : GoString) : Int := len (FindAllString retailer)

/-- The points of main.go:83-85, for the `float64` of the total. -/
def roundDollarPoints (cv : FloatConv) (total : F64) : Int :=
  if F64.eq total (F64.ofInt (F64.toInt cv total)) then 50 else 0

/-- The points of main.go:86-88, for the `float64` of the total. -/
def quarterPoints (total : F64) : Int :=
  if F64.eq (F64.Mod total quarter) (F64.fin 0) then 25 else 0

/-- The points of main.go:90. -/
def pairPoints (items : List Item) : Int := wrap64 (Int.tdiv (len items) 2 * 5)

/-- The points one item adds in the loop of main.go:92-98. -/
def itemPoints (cv : FloatConv) (item : Item) : Int :=
  if Int.tmod (len (TrimSpace item.ShortDescription)) 3 = 0 then
    F64.toInt cv (F64.Ceil (F64.mul (ParseFloat item.Price).1 fifth))
  else 0

/-- The points of main.go:101-104, for the text `dateParts[2]`. -/
def dayPoints (d : GoString) : Int := if Int.tmod (Atoi d).1 2 = 1 then 6 else 0

/-- The points of main.go:107-110, for the text `timeParts[0]`. -/
def hourPoints (h : GoString) : Int :=
  if (Atoi h).1 ≥ 14 ∧ (Atoi h).1 < 16 then 10 else 0

/-! ## Auxiliary predicates -/

/-- Whether `int(f)` is defined by the language: `f` is finite and its integer
part fits an `int`. -/
def F64.inIntRange : F64 → Bool
  | F64.fin u => decide (minInt64 ≤ Int.tdiv u (one : Int) ∧ Int.tdiv u (one : Int) ≤ maxInt64)
  | _ => false

/-- Whether every `int(..)` conversion that `calculatePoints` performs on the
receipt is defined by the language. -/
def conversionsDefined (r : Receipt) : Bool :=
  F64.inIntRange (ParseFloat r.Total).1 &&
    r.Items.all (fun item =>
      F64.inIntRange (F64.Ceil (F64.mul (ParseFloat item.Price).1 fifth)))

/-- The `float64` value `2^63`, the least whole number above the largest
`int`. -/
def intLimit : F64 := F64.fin ((2 ^ 63 * one : Nat) : Int)

/-- Whether a `float64` is a whole number that fits an `int`: finite, an exact
multiple of 1, and with `-2^63 <= f < 2^63`. -/
def F64.isWholeInt : F64 → Bool
  | F64.fin u =>
      decide ((one : Int) ∣ u ∧ minInt64 ≤ Int.tdiv u (one : Int)
        ∧ Int.tdiv u (one : Int) ≤ maxInt64)
  | _ => false

/-- Whether a `float64` is finite and an exact multiple of 0.25. -/
def F64.isQuarterMultiple : F64 → Bool
  | F64.fin u => decide ((2 ^ 1072 : Int) ∣ u)
  | _ => false

/-- Whether the loop of main.go:92-98 counts the item: the length of its
trimmed description is divisible by 3. -/
def descriptionQualifies (item : Item) : Bool :=
  decide (Int.tmod (len (TrimSpace item.ShortDescription)) 3 = 0)

/-- The number that a decimal text denotes, exactly: the sign, and the
magnitude as a fraction `num / den`. `none` for a text that is not a decimal
number (a syntax error, a hexadecimal number, an infinity, NaN). -/
def decimalValue (s : GoString) : Option (Bool × Nat × Nat) :=
  match special s with
  | some _ => none
  | none =>
    match readFloat s with
    | none => none
    | some r =>
      if r.hex ∨ r.rest ≠ [] then none
      else if 0 ≤ r.exp then some (r.neg, r.mantissa * 10 ^ r.exp.toNat, 1)
      else some (r.neg, r.mantissa, 10 ^ (-r.exp).toNat)

/-- The round-dollar rule as the specification words it, on the decimal number
that the total denotes: 50 if its fractional part is exactly zero, else 0. -/
def specRoundDollarPoints (total : GoString) : Option Int :=
  (decimalValue total).map (fun v => if v.2.2 ∣ v.2.1 then 50 else 0)

/-- The quarter-multiple rule as the specification words it, on the decimal
number that the total denotes: 25 if it is an exact multiple of 0.25, else 0. -/
def specQuarterPoints (total : GoString) : Option Int :=
  (decimalValue total).map (fun v => if v.2.2 ∣ 4 * v.2.1 then 25 else 0)

/-- The points of one item as the specification words them: the price counts
as 0 whenever its text does not parse. -/
def specItemPoints (cv : FloatConv) (item : Item) : Int :=
  if Int.tmod (len (TrimSpace item.ShortDescription)) 3 = 0 then
    let price := if (ParseFloat item.Price).2 = none then (ParseFloat item.Price).1 else F64.fin 0
    F64.toInt cv (F64.Ceil (F64.mul price fifth))
  else 0

/-- Whether a `float64` is finite and not negative. -/
def F64.isNonneg : F64 → Bool
  | F64.fin u => decide (0 ≤ u)
  | _ => false

/-- The request path of the points of `id`. -/
def pointsPath (id : GoString) : GoString := utf8 "/receipts/" ++ id ++ utf8 "/points"

/-- The receipt that the JSON body `{}` decodes to: every field is empty. -/
def zeroReceipt : Receipt := ⟨[], [], [], [], []⟩

/-! ## Fixtures -/

/-- The "Target" example receipt. -/
def targetReceipt : Receipt :=
  { Retailer := utf8 "Target"
    PurchaseDate := utf8 "2022-01-01"
    PurchaseTime := utf8 "13:01"
    Total := utf8 "35.35"
    Items :=
      [ ⟨utf8 "Mountain Dew 12PK", utf8 "6.49"⟩
      , ⟨utf8 "Emils Cheese Pizza", utf8 "12.25"⟩
      , ⟨utf8 "Knorr Creamy Chicken", utf8 "1.26"⟩
      , ⟨utf8 "Doritos Nacho Cheese", utf8 "3.35"⟩
      , ⟨utf8 "   Klarbrunn 12-PK 12 FL OZ  ", utf8 "12.00"⟩ ] }

/-- The "M&M Corner Market" example receipt. -/
def cornerMarketReceipt : Receipt :=
  { Retailer := utf8 "M&M Corner Market"
    PurchaseDate := utf8 "2022-03-20"
    PurchaseTime := utf8 "14:33"
    Total := utf8 "9.00"
    Items :=
      [ ⟨utf8 "Gatorade", utf8 "2.25"⟩
      , ⟨utf8 "Gatorade", utf8 "2.25"⟩
      , ⟨utf8 "Gatorade", utf8 "2.25"⟩
      , ⟨utf8 "Gatorade", utf8 "2.25"⟩ ] }

/-- The Target receipt with two items ("abc", "23058430092136939520"): each
price is 5 * 2^62, so each item adds 2^62 points. -/
def largePricesReceipt : Receipt :=
  { targetReceipt with
    Items :=
      [ ⟨utf8 "abc", utf8 "23058430092136939520"⟩
      , ⟨utf8 "abc", utf8 "23058430092136939520"⟩ ] }

/-! ## Theorems -/

/-! ### 64-bit arithmetic -/

theorem wrap64_add_left (a b : Int) : wrap64 (wrap64 a + b) = wrap64 (a + b) := by
  unfold wrap64; omega

theorem wrap64_add_right (a b : Int) : wrap64 (a + wrap64 b) = wrap64 (a + b) := by
  unfold wrap64; omega

theorem wrap64_idem (a : Int) : wrap64 (wrap64 a) = wrap64 a := by
  unfold wrap64; omega

theorem wrap64_of_range (a : Int) (h1 : minInt64 ≤ a) (h2 : a ≤ maxInt64) :
    wrap64 a = a := by
  unfold wrap64; unfold minInt64 at h1; unfold maxInt64 at h2; omega

theorem wrap64_range (a : Int) : minInt64 ≤ wrap64 a ∧ wrap64 a ≤ maxInt64 := by
  unfold wrap64 minInt64 maxInt64; omega

/-! ### The score as a sum -/

theorem Split_ne_nil (s : GoString) (sep : UInt8) : Split s sep ≠ [] := by
  induction s with
  | nil => simp [Split]
  | cons c t ih =>
    unfold Split
    split
    · simp
    · split <;> simp

theorem itemStep_eq (cv : FloatConv) (p : Int) (item : Item) :
    itemStep cv (wrap64 p) item = wrap64 (p + itemPoints cv item) := by
  unfold itemStep itemPoints
  by_cases h : Int.tmod (len (TrimSpace item.ShortDescription)) 3 = 0
  · simp only [h, if_true]; exact wrap64_add_left _ _
  · simp only [h, if_false, add_zero]

theorem foldl_itemStep (cv : FloatConv) (items : List Item) (p : Int) :
    items.foldl (itemStep cv) (wrap64 p) = wrap64 (p + (items.map (itemPoints cv)).sum) := by
  induction items generalizing p with
  | nil => simp
  | cons it rest ih =>
    simp only [List.foldl_cons, List.map_cons, List.sum_cons]
    rw [itemStep_eq, ih, add_assoc]

/-- The score is the sum, in 64-bit arithmetic, of the points of the seven
rules; the function panics exactly when the date has no third field. -/
theorem calculatePoints_eq (cv : FloatConv) (r : Receipt) :
    calculatePoints cv r =
      ((Split r.PurchaseDate (ch '-'))[2]?).map (fun d =>
        wrap64 (retailerPoints r.Retailer + roundDollarPoints cv (ParseFloat r.Total).1
          + quarterPoints (ParseFloat r.Total).1 + pairPoints r.Items
          + (r.Items.map (itemPoints cv)).sum + dayPoints d
          + hourPoints ((Split r.PurchaseTime (ch ':')).headD []))) := by
  cases ht : Split r.PurchaseTime (ch ':') with
  | nil => exact absurd ht (Split_ne_nil _ _)
  | cons h rest =>
    cases hd : (Split r.PurchaseDate (ch '-'))[2]? with
    | none => simp only [calculatePoints, hd, Option.map_none']
    | some d =>
      simp only [calculatePoints, hd, ht, List.getElem?_cons_zero, Option.map_some',
        List.headD_cons, zero_add, retailerPoints, roundDollarPoints, quarterPoints,
        pairPoints, dayPoints, hourPoints]
      congr 1
      generalize wrap64 (Int.tdiv (len r.Items) 2 * 5) = pairs
      split_ifs <;>
        simp only [foldl_itemStep, wrap64_add_left, wrap64_add_right, add_zero]

theorem calculatePoints_eq_none_iff (cv : FloatConv) (r : Receipt) :
    calculatePoints cv r = none ↔ (Split r.PurchaseDate (ch '-')).length < 3 := by
  rw [calculatePoints_eq, Option.map_eq_none', List.getElem?_eq_none_iff]
  omega

theorem toInt_of_inIntRange (cv cv' : FloatConv) (x : F64) (h : x.inIntRange = true) :
    F64.toInt cv x = F64.toInt cv' x := by
  cases x with
  | nan => simp [F64.inIntRange] at h
  | inf neg => simp [F64.inIntRange] at h
  | fin u =>
    simp only [F64.inIntRange, decide_eq_true_eq] at h
    simp only [F64.toInt, h, and_self, if_true]

/-- On a receipt whose conversions to `int` are all defined, the score does not
depend on the implementation. -/
theorem calculatePoints_conv (cv cv' : FloatConv) (r : Receipt)
    (h : conversionsDefined r = true) : calculatePoints cv r = calculatePoints cv' r := by
  simp only [conversionsDefined, Bool.and_eq_true, List.all_eq_true] at h
  rw [calculatePoints_eq, calculatePoints_eq]
  have h1 : roundDollarPoints cv (ParseFloat r.Total).1
      = roundDollarPoints cv' (ParseFloat r.Total).1 := by
    unfold roundDollarPoints
    rw [toInt_of_inIntRange cv cv' _ h.1]
  have h2 : r.Items.map (itemPoints cv) = r.Items.map (itemPoints cv') := by
    apply List.map_congr_left
    intro item hi
    unfold itemPoints
    rw [toInt_of_inIntRange cv cv' _ (h.2 item hi)]
  rw [h1, h2]

/-! ### The store and the request path -/

theorem Store.get_put (store : Store) (id : GoString) (points : Int) :
    Store.get (Store.put store id points) id = (points, true) := by
  simp [Store.get, Store.put]

theorem TrimPrefix_append (pre s : GoString) : TrimPrefix (pre ++ s) pre = s := by
  simp [TrimPrefix]

theorem TrimSuffix_append (s suf : GoString) : TrimSuffix (s ++ suf) suf = s := by
  simp [TrimSuffix]

/-- The key that `getPoints` looks up for the path of `id` is `id`. -/
theorem TrimSuffix_TrimPrefix_pointsPath (id : GoString) :
    TrimSuffix (TrimPrefix (pointsPath id) (utf8 "/receipts/")) (utf8 "/points") = id := by
  unfold pointsPath
  rw [List.append_assoc, TrimPrefix_append, TrimSuffix_append]

/-! ### What the parsers return with an error -/

theorem ParseFloat_syntax_value (s : GoString) (h : (ParseFloat s).2 = some NumError.ErrSyntax) :
    (ParseFloat s).1 = F64.fin 0 := by
  unfold ParseFloat at h ⊢
  split at h
  · split at h
    · simp_all
    · simp at h
  · split at h
    · rfl
    · split at h
      · simp_all
      · split at h; simp at h

theorem ParseFloat_zero : ParseFloat (utf8 "0") = (F64.fin 0, none) := by decide!

theorem ParseInt_cases (s : GoString) :
    ParseInt s = (0, some NumError.ErrSyntax) ∨ ParseInt s = (maxInt64, some NumError.ErrRange)
      ∨ ParseInt s = (minInt64, some NumError.ErrRange) ∨ (ParseInt s).2 = none := by
  cases s with
  | nil => left; rfl
  | cons c t =>
    simp only [ParseInt]
    generalize ParseUint (if c = ch '+' ∨ c = ch '-' then t else c :: t) = pu
    obtain ⟨un, err⟩ := pu
    simp only
    split_ifs <;> simp_all [maxInt64, minInt64]

/-- An `Atoi` that fails returns 0 with a syntax error, or the nearest bound of
`int` with a range error. -/
theorem Atoi_cases (s : GoString) :
    Atoi s = (0, some NumError.ErrSyntax) ∨ Atoi s = (maxInt64, some NumError.ErrRange)
      ∨ Atoi s = (minInt64, some NumError.ErrRange) ∨ (Atoi s).2 = none := by
  cases s with
  | nil => exact ParseInt_cases []
  | cons c t =>
    simp only [Atoi]
    split_ifs <;> (try split) <;> first | exact ParseInt_cases _ | simp

theorem Atoi_syntax_value (s : GoString) (h : (Atoi s).2 = some NumError.ErrSyntax) :
    (Atoi s).1 = 0 := by
  rcases Atoi_cases s with h' | h' | h' | h' <;> simp_all

theorem Atoi_zero : Atoi (utf8 "0") = (0, none) := by decide

theorem hourPoints_of_error (h : GoString) (he : (Atoi h).2 ≠ none) : hourPoints h = 0 := by
  unfold hourPoints
  rcases Atoi_cases h with h' | h' | h' | h'
  · simp [h']
  · simp [h', maxInt64]
  · simp [h', minInt64]
  · exact absurd h' he

theorem itemPoints_syntax_price (cv : FloatConv) (item : Item)
    (h : (ParseFloat item.Price).2 = some NumError.ErrSyntax) :
    itemPoints cv item = itemPoints cv { item with Price := utf8 "0" } := by
  unfold itemPoints
  simp only [ParseFloat_syntax_value _ h, ParseFloat_zero]

/-! ### Binary digits and rounding -/

theorem sizeExp_spec (fuel j n : Nat) (h : n < 2 ^ 2 ^ (j + fuel)) :
    n < 2 ^ 2 ^ sizeExp fuel j n := by
  induction fuel generalizing j with
  | zero => simpa [sizeExp] using h
  | succ fuel ih =>
    unfold sizeExp
    split_ifs with hlt
    · exact hlt
    · apply ih
      have : j + 1 + fuel = j + (fuel + 1) := by omega
      rw [this]; exact h

theorem lt_two_pow_sizeExp (n : Nat) : n < 2 ^ 2 ^ sizeExp n 0 n := by
  apply sizeExp_spec
  rw [Nat.zero_add]
  calc n < 2 ^ n := Nat.lt_two_pow n
    _ ≤ 2 ^ 2 ^ n := Nat.pow_le_pow_right (by norm_num) (Nat.lt_two_pow n).le

theorem bitLenAux_spec (j n : Nat) (h : n < 2 ^ 2 ^ j) :
    n < 2 ^ bitLenAux j n ∧ ∀ b, n < 2 ^ b → bitLenAux j n ≤ b := by
  induction j generalizing n with
  | zero =>
    simp only [pow_zero, pow_one] at h
    unfold bitLenAux
    split_ifs with h0
    · subst h0; simp
    · have h1 : n = 1 := by omega
      subst h1
      refine ⟨by norm_num, fun b hb => ?_⟩
      rcases b with _ | b
      · simp at hb
      · omega
  | succ j ih =>
    unfold bitLenAux
    split_ifs with hlt
    · exact ih n hlt
    · have hpos : 0 < 2 ^ 2 ^ j := by positivity
      have hdiv : n / 2 ^ 2 ^ j < 2 ^ 2 ^ j := by
        rw [Nat.div_lt_iff_lt_mul hpos, ← pow_add]
        have : 2 ^ j + 2 ^ j = 2 ^ (j + 1) := by rw [pow_succ]; omega
        rw [this]; exact h
      obtain ⟨h1, h2⟩ := ih _ hdiv
      constructor
      · rw [pow_add, mul_comm]
        exact (Nat.div_lt_iff_lt_mul hpos).1 h1
      · intro b hb
        have hle : 2 ^ 2 ^ j ≤ n := Nat.le_of_not_lt hlt
        have hjb : 2 ^ j < b := by
          by_contra hcon
          have : 2 ^ b ≤ 2 ^ 2 ^ j := Nat.pow_le_pow_right (by norm_num) (by omega)
          omega
        have hb' : n / 2 ^ 2 ^ j < 2 ^ (b - 2 ^ j) := by
          rw [Nat.div_lt_iff_lt_mul hpos, ← pow_add]
          have : b - 2 ^ j + 2 ^ j = b := by omega
          rw [this]; exact hb
        have := h2 _ hb'
        omega

theorem lt_two_pow_bitLen (n : Nat) : n < 2 ^ bitLen n :=
  (bitLenAux_spec _ n (lt_two_pow_sizeExp n)).1

theorem bitLen_le (n b : Nat) (h : n < 2 ^ b) : bitLen n ≤ b :=
  (bitLenAux_spec _ n (lt_two_pow_sizeExp n)).2 b h

theorem two_pow_le_of_bitLen (n b : Nat) (h : b < bitLen n) : 2 ^ b ≤ n := by
  by_contra hcon
  have := bitLen_le n b (by omega)
  omega

theorem bitLen_eq (n b : Nat) (h1 : 2 ^ b ≤ n) (h2 : n < 2 ^ (b + 1)) : bitLen n = b + 1 := by
  apply le_antisymm (bitLen_le n _ h2)
  by_contra hcon
  have h3 : bitLen n ≤ b := by omega
  have h4 := lt_two_pow_bitLen n
  have : 2 ^ bitLen n ≤ 2 ^ b := Nat.pow_le_pow_right (by norm_num) h3
  omega

theorem roundHalfEven_exact (num den : Nat) (hden : 0 < den) (h : den ∣ num) :
    roundHalfEven num den = num / den := by
  unfold roundHalfEven
  have hr : num % den = 0 := Nat.mod_eq_zero_of_dvd h
  simp only [hr, mul_zero]
  rw [if_neg]
  omega

theorem roundHalfEven_ge (num den : Nat) : num / den ≤ roundHalfEven num den := by
  unfold roundHalfEven
  simp only
  split_ifs <;> omega

theorem roundHalfEven_le (num den : Nat) : roundHalfEven num den ≤ num / den + 1 := by
  unfold roundHalfEven
  simp only
  split_ifs <;> omega

/-- A number with a significand of at most 53 bits is its own rounding. -/
theorem roundUnits_canonical (m k : Nat) (hm : m ≤ 2 ^ 53) (hk : k = 0 ∨ 2 ^ 52 ≤ m) :
    roundUnits (m * 2 ^ k) 1 = m * 2 ^ k := by
  have key : 2 ^ (bitLen (m * 2 ^ k) - 53) ∣ m * 2 ^ k := by
    rcases Nat.eq_or_lt_of_le hm with h53 | hlt
    · subst h53
      have hb : bitLen (2 ^ 53 * 2 ^ k) = 53 + k + 1 := by
        apply bitLen_eq
        · rw [← pow_add]
        · rw [← pow_add]; exact Nat.pow_lt_pow_right (by norm_num) (by omega)
      rw [hb, ← pow_add]
      exact pow_dvd_pow 2 (by omega)
    · rcases hk with h0 | h52
      · subst h0
        have hb : bitLen (m * 2 ^ 0) ≤ 53 := bitLen_le _ _ (by simpa using hlt)
        have : bitLen (m * 2 ^ 0) - 53 = 0 := by omega
        rw [this]; simp
      · have hb : bitLen (m * 2 ^ k) = 52 + k + 1 := by
          apply bitLen_eq
          · rw [pow_add]; exact Nat.mul_le_mul_right _ h52
          · have : 2 ^ (52 + k + 1) = 2 ^ 53 * 2 ^ k := by rw [← pow_add]; congr 1; omega
            rw [this]
            exact Nat.mul_lt_mul_of_pos_right hlt (by positivity)
        rw [hb]
        have : 52 + k + 1 - 53 = k := by omega
        rw [this]
        exact Dvd.intro_left m rfl
  unfold roundUnits
  simp only [Nat.div_one, one_mul]
  rw [roundHalfEven_exact _ _ (by positivity) key, Nat.div_mul_cancel key]

/-- The rounding has a significand of at most 53 bits. -/
theorem roundUnits_form (num den : Nat) :
    ∃ m k, roundUnits num den = m * 2 ^ k ∧ m ≤ 2 ^ 53 ∧ (k = 0 ∨ 2 ^ 52 ≤ m) := by
  refine ⟨roundHalfEven num (den * 2 ^ (bitLen (num / den) - 53)),
    bitLen (num / den) - 53, rfl, ?_, ?_⟩
  · have h1 := roundHalfEven_le num (den * 2 ^ (bitLen (num / den) - 53))
    have h2 : num / (den * 2 ^ (bitLen (num / den) - 53)) < 2 ^ 53 := by
      rw [← Nat.div_div_eq_div_mul, Nat.div_lt_iff_lt_mul (by positivity), ← pow_add]
      calc num / den < 2 ^ bitLen (num / den) := lt_two_pow_bitLen _
        _ ≤ 2 ^ (53 + (bitLen (num / den) - 53)) :=
            Nat.pow_le_pow_right (by norm_num) (by omega)
    omega
  · by_cases hb : bitLen (num / den) ≤ 53
    · left; omega
    · right
      have h1 := roundHalfEven_ge num (den * 2 ^ (bitLen (num / den) - 53))
      have h2 : 2 ^ 52 ≤ num / (den * 2 ^ (bitLen (num / den) - 53)) := by
        rw [← Nat.div_div_eq_div_mul, Nat.le_div_iff_mul_le (by positivity), ← pow_add]
        apply two_pow_le_of_bitLen
        omega
      omega

theorem roundUnits_idem (num den : Nat) :
    roundUnits (roundUnits num den) 1 = roundUnits num den := by
  obtain ⟨m, k, h, hm, hk⟩ := roundUnits_form num den
  rw [h]
  exact roundUnits_canonical m k hm hk

/-- Rounding does not pass a power of two. -/
theorem roundUnits_le_two_pow (x B : Nat) (hB : 53 ≤ B) (h : x ≤ 2 ^ B) :
    roundUnits x 1 ≤ 2 ^ B := by
  rcases Nat.eq_or_lt_of_le h with heq | hlt
  · subst heq
    have : 2 ^ B = 2 ^ 53 * 2 ^ (B - 53) := by rw [← pow_add]; congr 1; omega
    rw [this, roundUnits_canonical _ _ le_rfl (Or.inr (Nat.pow_le_pow_right (by norm_num) (by norm_num)))]
  · unfold roundUnits
    simp only [Nat.div_one, one_mul]
    have hb : bitLen x ≤ B := bitLen_le _ _ hlt
    have hk : bitLen x - 53 ≤ B := by omega
    have h1 := roundHalfEven_le x (2 ^ (bitLen x - 53))
    have h2 : x / 2 ^ (bitLen x - 53) < 2 ^ (B - (bitLen x - 53)) := by
      rw [Nat.div_lt_iff_lt_mul (by positivity), ← pow_add]
      have : B - (bitLen x - 53) + (bitLen x - 53) = B := by omega
      rw [this]; exact hlt
    calc roundHalfEven x (2 ^ (bitLen x - 53)) * 2 ^ (bitLen x - 53)
        ≤ 2 ^ (B - (bitLen x - 53)) * 2 ^ (bitLen x - 53) :=
          Nat.mul_le_mul_right _ (by omega)
      _ = 2 ^ B := by rw [← pow_add]; congr 1; omega

theorem one_dvd_two_pow (k : Nat) (h : 1074 ≤ k) : one ∣ 2 ^ k :=
  pow_dvd_pow 2 h

theorem two_pow_dvd_one (k : Nat) (h : k ≤ 1074) : 2 ^ k ∣ one :=
  pow_dvd_pow 2 h

/-- The rounding of a whole number is a whole number. -/
theorem one_dvd_roundUnits (n : Nat) : one ∣ roundUnits (n * one) 1 := by
  unfold roundUnits
  simp only [Nat.div_one, one_mul]
  by_cases hk : bitLen (n * one) - 53 ≤ 1074
  · have hdvd : 2 ^ (bitLen (n * one) - 53) ∣ n * one :=
      Dvd.dvd.mul_left (two_pow_dvd_one _ hk) n
    rw [roundHalfEven_exact _ _ (by positivity) hdvd, Nat.div_mul_cancel hdvd]
    exact Dvd.intro_left n rfl
  · exact Dvd.dvd.mul_left (one_dvd_two_pow _ (by omega)) _

/-! ### float64 conversions -/

theorem one_pos : 0 < one := by unfold one; positivity

theorem two_pow_le_maxUnits : 2 ^ 1137 ≤ maxUnits := by decide!

theorem F64.round_fin (neg : Bool) (num den : Nat) (u : Int)
    (h : (F64.round neg num den).1 = F64.fin u) : u.natAbs = roundUnits num den := by
  unfold F64.round at h
  simp only at h
  by_cases hle : roundUnits num den ≤ maxUnits
  · rw [if_pos hle] at h
    simp only [F64.fin.injEq] at h
    subst h
    cases neg <;> simp
  · rw [if_neg hle] at h
    simp at h

/-- The conversion `float64(j)` of an `int`: finite, with magnitude at most
`2^63`. -/
theorem F64.ofInt_eq (j : Int) (hj : j.natAbs ≤ 2 ^ 63) :
    F64.ofInt j
        = F64.fin (if j < 0 then -(roundUnits (j.natAbs * one) 1 : Int)
            else (roundUnits (j.natAbs * one) 1 : Int))
      ∧ roundUnits (j.natAbs * one) 1 ≤ 2 ^ 63 * one := by
  have hx : j.natAbs * one ≤ 2 ^ 1137 := by
    calc j.natAbs * one ≤ 2 ^ 63 * one := Nat.mul_le_mul_right _ hj
      _ = 2 ^ 1137 := by unfold one; rw [← pow_add]
  have hR := roundUnits_le_two_pow _ 1137 (by norm_num) hx
  constructor
  · unfold F64.ofInt F64.round
    simp only [mul_one, le_trans hR two_pow_le_maxUnits, if_true, decide_eq_true_eq]
  · calc roundUnits (j.natAbs * one) 1 ≤ 2 ^ 1137 := hR
      _ = 2 ^ 63 * one := by unfold one; rw [← pow_add]

theorem natAbs_le_of_range (j : Int) (h1 : minInt64 ≤ j) (h2 : j ≤ maxInt64) :
    j.natAbs ≤ 2 ^ 63 := by
  unfold minInt64 at h1; unfold maxInt64 at h2; omega

theorem natCast_one_ne_zero : (one : Int) ≠ 0 := by
  have := one_pos; omega

/-- For a representable `u` whose integer part fits an `int`: `u` is equal to
the `float64` of its integer part exactly when it is whole. -/
theorem eq_ofInt_toInt_iff (u : Int) (hrep : roundUnits u.natAbs 1 = u.natAbs)
    (h1 : minInt64 ≤ Int.tdiv u (one : Int)) (h2 : Int.tdiv u (one : Int) ≤ maxInt64) :
    F64.eq (F64.fin u) (F64.ofInt (Int.tdiv u (one : Int))) = true ↔ (one : Int) ∣ u := by
  have hj := natAbs_le_of_range _ h1 h2
  rw [(F64.ofInt_eq _ hj).1]
  simp only [F64.eq, decide_eq_true_eq]
  constructor
  · intro h
    have hd : (one : Int) ∣ (roundUnits ((Int.tdiv u (one : Int)).natAbs * one) 1 : Int) :=
      Int.natCast_dvd_natCast.2 (one_dvd_roundUnits _)
    rw [h]
    split_ifs
    · exact (Int.dvd_neg).2 hd
    · exact hd
  · intro hd
    have hmul : Int.tdiv u (one : Int) * (one : Int) = u := Int.tdiv_mul_cancel hd
    have habs : (Int.tdiv u (one : Int)).natAbs * one = u.natAbs := by
      conv_rhs => rw [← hmul]
      rw [Int.natAbs_mul, Int.natAbs_ofNat]
    rw [habs, hrep]
    have hpos : (0 : Int) < (one : Int) := by exact_mod_cast one_pos
    split_ifs with hneg
    · have : u < 0 := by rw [← hmul]; exact Int.mul_neg_of_neg_of_pos hneg hpos
      omega
    · have : 0 ≤ u := by rw [← hmul]; exact Int.mul_nonneg (by omega) hpos.le
      omega

theorem specialInf_value (neg : Bool) (nsign : Nat) (s : GoString) (v : F64) (n : Nat)
    (h : specialInf neg nsign s = some (v, n)) : v = F64.inf neg := by
  unfold specialInf at h
  simp only at h
  split_ifs at h <;>
    (simp only [Option.some.injEq, Prod.mk.injEq] at h; exact h.1.symm)

theorem special_value (s : GoString) (v : F64) (n : Nat) (h : special s = some (v, n)) :
    v = F64.nan ∨ ∃ b, v = F64.inf b := by
  unfold special at h
  split at h
  · simp at h
  · split_ifs at h
    · exact Or.inr ⟨_, specialInf_value _ _ _ _ _ h⟩
    · exact Or.inr ⟨_, specialInf_value _ _ _ _ _ h⟩
    · simp only [Option.some.injEq, Prod.mk.injEq] at h
      exact Or.inl h.1.symm

theorem roundUnits_zero : roundUnits 0 1 = 0 := by
  have := roundUnits_canonical 0 0 (by norm_num) (Or.inl rfl)
  simpa using this

theorem FloatText.toF64_representable (r : FloatText) (u : Int)
    (h : r.toF64.1 = F64.fin u) : roundUnits u.natAbs 1 = u.natAbs := by
  unfold FloatText.toF64 at h
  simp only at h
  split_ifs at h <;>
    (rw [F64.round_fin _ _ _ _ h]; exact roundUnits_idem _ _)

/-- Every finite value that `ParseFloat` returns is a `float64`: it has a
significand of at most 53 bits. -/
theorem ParseFloat_representable (s : GoString) (u : Int)
    (h : (ParseFloat s).1 = F64.fin u) : roundUnits u.natAbs 1 = u.natAbs := by
  have h0 : ∀ w : Int, F64.fin 0 = F64.fin w → roundUnits w.natAbs 1 = w.natAbs := by
    intro w hw
    simp only [F64.fin.injEq] at hw
    subst hw
    exact roundUnits_zero
  unfold ParseFloat at h
  split at h
  · rename_i v n hs
    split_ifs at h
    · exact h0 u h
    · simp only at h
      rcases special_value _ _ _ hs with hv | ⟨b, hv⟩ <;> rw [hv] at h <;> simp at h
  · split at h
    · exact h0 u h
    · split_ifs at h
      · exact h0 u h
      · exact FloatText.toF64_representable _ u h

theorem tdiv_one_nonpos (u : Int) (h : u ≤ 0) : Int.tdiv u (one : Int) ≤ 0 := by
  have h1 : Int.tdiv (-u) (one : Int) = -(Int.tdiv u (one : Int)) := Int.neg_tdiv u _
  have h2 : 0 ≤ Int.tdiv (-u) (one : Int) :=
    Int.tdiv_nonneg (by omega) (by exact_mod_cast one_pos.le)
  omega

/-- A value whose integer part does not fit an `int` is not the `float64` of any
`int`, unless it is `2^63`. -/
theorem ne_ofInt_of_not_range (u j : Int) (hj1 : minInt64 ≤ j) (hj2 : j ≤ maxInt64)
    (hr : ¬ (minInt64 ≤ Int.tdiv u (one : Int) ∧ Int.tdiv u (one : Int) ≤ maxInt64))
    (hne : F64.fin u ≠ intLimit) : F64.eq (F64.fin u) (F64.ofInt j) = false := by
  obtain ⟨he, hR⟩ := F64.ofInt_eq j (natAbs_le_of_range j hj1 hj2)
  rw [he]
  simp only [F64.eq, decide_eq_false_iff_not]
  intro huv
  have habs : u.natAbs = roundUnits (j.natAbs * one) 1 := by
    rw [huv]; split_ifs <;> simp
  have hle : u.natAbs ≤ 2 ^ 63 * one := habs ▸ hR
  have hi : (Int.tdiv u (one : Int)).natAbs ≤ 2 ^ 63 := by
    rw [Int.natAbs_tdiv, Int.natAbs_ofNat]
    exact Nat.div_le_of_le_mul (by rw [mul_comm]; exact hle)
  have hi63 : Int.tdiv u (one : Int) = 2 ^ 63 := by
    unfold minInt64 maxInt64 at hr
    omega
  have hpos : 0 < u := by
    by_contra hcon
    have := tdiv_one_nonpos u (by omega)
    omega
  have hdiv : u.natAbs / one = 2 ^ 63 := by
    have := Int.natAbs_tdiv u (one : Int)
    rw [hi63, Int.natAbs_ofNat] at this
    simpa using this.symm
  have hge : 2 ^ 63 * one ≤ u.natAbs := by
    have := Nat.div_mul_le_self u.natAbs one
    rw [hdiv] at this
    exact this
  apply hne
  unfold intLimit
  congr 1
  have : u.natAbs = 2 ^ 63 * one := le_antisymm hle hge
  omega

/-- The round-dollar rule on a `float64` total: 50 points exactly for the whole
numbers that fit an `int`; what `2^63` gets depends on the implementation. -/
theorem roundDollarPoints_eq (cv : FloatConv) (t : F64)
    (hrep : ∀ u, t = F64.fin u → roundUnits u.natAbs 1 = u.natAbs) (hne : t ≠ intLimit) :
    roundDollarPoints cv t = if t.isWholeInt then 50 else 0 := by
  unfold roundDollarPoints
  cases t with
  | nan => simp [F64.eq, F64.isWholeInt]
  | inf b =>
    have hw := wrap64_range (cv (F64.inf b))
    obtain ⟨he, -⟩ := F64.ofInt_eq _ (natAbs_le_of_range _ hw.1 hw.2)
    simp only [F64.toInt, he, F64.eq, F64.isWholeInt]
  | fin u =>
    by_cases hr : minInt64 ≤ Int.tdiv u (one : Int) ∧ Int.tdiv u (one : Int) ≤ maxInt64
    · have hiff := eq_ofInt_toInt_iff u (hrep u rfl) hr.1 hr.2
      simp only [F64.toInt, hr, and_self, if_true, F64.isWholeInt, and_true,
        decide_eq_true_eq]
      by_cases hd : (one : Int) ∣ u
      · rw [if_pos (hiff.2 hd), if_pos hd]
      · rw [if_neg (fun h => hd (hiff.1 h)), if_neg hd]
    · have hw := wrap64_range (cv (F64.fin u))
      have hfalse := ne_ofInt_of_not_range u _ hw.1 hw.2 hr hne
      simp only [F64.toInt, hr, if_false, hfalse, F64.isWholeInt]
      simp only [Bool.false_eq_true, if_false]
      rw [if_neg]
      intro h
      simp only [decide_eq_true_eq] at h
      exact h.2

theorem quarterPoints_eq (t : F64) :
    quarterPoints t = if t.isQuarterMultiple then 25 else 0 := by
  unfold quarterPoints
  cases t with
  | nan => simp only [F64.Mod, F64.eq, F64.isQuarterMultiple, Bool.false_eq_true, if_false]
  | inf b => simp only [F64.Mod, F64.eq, F64.isQuarterMultiple, Bool.false_eq_true, if_false]
  | fin u =>
    have hq : (2 ^ 1072 : Int) ≠ 0 := by positivity
    unfold quarter F64.isQuarterMultiple
    generalize (2 ^ 1072 : Int) = q at hq ⊢
    simp only [F64.Mod, hq, if_false, F64.eq, decide_eq_true_eq]
    by_cases hd : q ∣ u
    · rw [if_pos hd, if_pos]
      exact Int.tmod_eq_zero_of_dvd hd
    · rw [if_neg hd, if_neg]
      exact fun h => hd (Int.dvd_of_tmod_eq_zero h)

/-! ### Items, retailer -/

theorem sum_itemPoints (cv : FloatConv) (items : List Item) :
    (items.map (itemPoints cv)).sum
      = ((items.filter descriptionQualifies).map (fun item =>
          F64.toInt cv (F64.Ceil (F64.mul (ParseFloat item.Price).1 fifth)))).sum := by
  induction items with
  | nil => rfl
  | cons item rest ih =>
    by_cases hq : Int.tmod (len (TrimSpace item.ShortDescription)) 3 = 0
    · have hd : descriptionQualifies item = true := by
        simp only [descriptionQualifies, hq, decide_True]
      simp only [List.map_cons, List.sum_cons, List.filter_cons, hd, if_true, ih, itemPoints,
        hq]
    · have hd : descriptionQualifies item = false := by
        simp only [descriptionQualifies, hq, decide_False]
      simp only [List.map_cons, List.sum_cons, List.filter_cons, hd, ih, itemPoints, hq,
        if_false, zero_add, Bool.false_eq_true]

theorem Ceil_mul_zero : F64.Ceil (F64.mul (F64.fin 0) fifth) = F64.fin 0 := by decide!

theorem toInt_zero (cv : FloatConv) : F64.toInt cv (F64.fin 0) = 0 := by
  simp only [F64.toInt, Int.zero_tdiv]
  rw [if_pos]
  decide

theorem asciiSpace_lt (c : UInt8) (h : asciiSpace c = true) : ¬ c ≥ 0x80 := by
  simp only [asciiSpace, Bool.or_eq_true, decide_eq_true_eq] at h
  rcases h with ((((h | h) | h) | h) | h) | h <;> subst h <;> decide

theorem TrimSpace_of_asciiSpace (desc : GoString) (h : ∀ c ∈ desc, asciiSpace c = true) :
    TrimSpace desc = [] := by
  induction desc with
  | nil => rfl
  | cons c s ih =>
    have hc := h c (List.mem_cons_self c s)
    unfold TrimSpace
    rw [if_neg (asciiSpace_lt c hc), if_pos hc]
    exact ih (fun x hx => h x (List.mem_cons_of_mem c hx))

theorem pairPoints_nil : pairPoints [] = 0 := by decide

theorem calculatePoints_range (cv : FloatConv) (r : Receipt) (p : Int)
    (h : calculatePoints cv r = some p) : minInt64 ≤ p ∧ p ≤ maxInt64 := by
  rw [calculatePoints_eq] at h
  cases hd : (Split r.PurchaseDate (ch '-'))[2]? with
  | none => rw [hd] at h; simp at h
  | some d =>
    rw [hd] at h
    simp only [Option.map_some', Option.some.injEq] at h
    rw [← h]
    exact wrap64_range _

theorem retailerPoints_eq (retailer : GoString) :
    retailerPoints retailer = (retailer.countP alphanumeric : Nat) := by
  simp only [retailerPoints, len, FindAllString, List.length_map, List.countP_eq_length_filter]

theorem alphanumeric_ascii (c : UInt8) (h : alphanumeric c = true) : c < 0x80 := by
  simp only [alphanumeric, decide_eq_true_eq] at h
  have hz : (ch 'z').toNat < 128 := by decide
  have hZ : (ch 'Z').toNat < 128 := by decide
  have h9 : (ch '9').toNat < 128 := by decide
  show c.toNat < 128
  rcases h with h | h | h
  · exact Nat.lt_of_le_of_lt h.2 hz
  · exact Nat.lt_of_le_of_lt h.2 hZ
  · exact Nat.lt_of_le_of_lt h.2 h9

/-! ### Fields, and `Atoi` on a field without a sign -/

theorem Split_no_sep (s : GoString) (sep : UInt8) :
    ∀ p ∈ Split s sep, sep ∉ p := by
  induction s with
  | nil =>
    intro p hp
    simp only [Split, List.mem_singleton] at hp
    subst hp
    exact List.not_mem_nil _
  | cons c t ih =>
    intro p hp
    unfold Split at hp
    by_cases hc : c = sep
    · rw [if_pos hc] at hp
      rcases List.mem_cons.1 hp with h | h
      · subst h; exact List.not_mem_nil _
      · exact ih p h
    · rw [if_neg hc] at hp
      cases hs : Split t sep with
      | nil => exact absurd hs (Split_ne_nil t sep)
      | cons piece pieces =>
        rw [hs] at hp ih
        rcases List.mem_cons.1 hp with h | h
        · subst h
          intro hmem
          rcases List.mem_cons.1 hmem with h1 | h1
          · exact hc h1.symm
          · exact ih piece (List.mem_cons_self _ _) h1
        · exact ih p (List.mem_cons_of_mem _ h)

theorem atoiFastLoop_nonneg (s : GoString) :
    ∀ n m : Int, 0 ≤ n → atoiFastLoop s n = some m → 0 ≤ m := by
  induction s with
  | nil =>
    intro n m hn h
    simp only [atoiFastLoop, Option.some.injEq] at h
    omega
  | cons c t ih =>
    intro n m hn h
    simp only [atoiFastLoop] at h
    split_ifs at h
    exact ih _ m (by have := Int.natCast_nonneg (c - ch '0').toNat; omega) h

theorem ParseInt_of_no_dash (c : UInt8) (t : GoString) (hc : c ≠ ch '-') :
    0 ≤ (ParseInt (c :: t)).1
      ∧ ((ParseInt (c :: t)).2 = some NumError.ErrRange → (ParseInt (c :: t)).1 = maxInt64) := by
  simp only [ParseInt, hc, decide_False, or_false]
  generalize ParseUint (if c = ch '+' then t else c :: t) = pu
  obtain ⟨un, err⟩ := pu
  simp only
  split_ifs <;> simp_all [maxInt64]

/-- On a text without `'-'`, `Atoi` returns a value that is not negative, and
with a range error it returns the largest `int`. -/
theorem Atoi_of_no_dash (s : GoString) (h : ch '-' ∉ s) :
    0 ≤ (Atoi s).1 ∧ ((Atoi s).2 = some NumError.ErrRange → (Atoi s).1 = maxInt64) := by
  cases s with
  | nil => decide
  | cons c t =>
    have hc : c ≠ ch '-' := fun hc => h (hc ▸ List.mem_cons_self _ _)
    simp only [Atoi]
    split_ifs
    all_goals first
      | exact ParseInt_of_no_dash c t hc
      | (split
         · simp
         · rename_i n hl
           have := atoiFastLoop_nonneg _ 0 n le_rfl hl
           simp [hc, this])
      | simp

theorem dayPoints_of_no_dash (d : GoString) (h : ch '-' ∉ d) :
    dayPoints d = if (Atoi d).1 % 2 = 1 then 6 else 0 := by
  unfold dayPoints
  rw [Int.tmod_eq_emod (Atoi_of_no_dash d h).1 (by norm_num)]

theorem Split_of_no_sep (s : GoString) (sep : UInt8) (h : sep ∉ s) : Split s sep = [s] := by
  induction s with
  | nil => rfl
  | cons c t ih =>
    have hc : c ≠ sep := fun hc => h (hc ▸ List.mem_cons_self _ _)
    have ht : sep ∉ t := fun ht => h (List.mem_cons_of_mem _ ht)
    unfold Split
    rw [if_neg hc, ih ht]

theorem wrap64_congr (x y : Int) (h : (x - y) % 2 ^ 64 = 0) : wrap64 x = wrap64 y := by
  unfold wrap64; omega

theorem wrap64_sub_emod (x : Int) : (wrap64 x - x) % 2 ^ 64 = 0 := by
  unfold wrap64; omega

theorem pairPoints_eq (items : List Item) :
    pairPoints items = wrap64 ((items.length / 2 * 5 : Nat) : Int) := by
  unfold pairPoints len
  rw [show (2 : Int) = ((2 : Nat) : Int) from rfl, ← Int.ofNat_tdiv]
  push_cast
  rfl

/-- The store after a `getPoints` is the store before it. -/
theorem getPoints_store (path : GoString) (store : Store) : (getPoints path store).2 = store := by
  unfold getPoints
  simp only
  split_ifs <;> rfl

theorem getPoints_of_none (path : GoString) (store : Store)
    (h : store (TrimSuffix (TrimPrefix path (utf8 "/receipts/")) (utf8 "/points")) = none) :
    getPoints path store
      = (Response.error (utf8 "No receipt found for that ID") StatusNotFound, store) := by
  simp only [getPoints, Store.get, h]
  rfl

theorem getPoints_of_some (path : GoString) (store : Store) (p : Int)
    (h : store (TrimSuffix (TrimPrefix path (utf8 "/receipts/")) (utf8 "/points")) = some p) :
    getPoints path store = (Response.pointsResponse p, store) := by
  simp only [getPoints, Store.get, h]
  rfl

theorem Store.get_put_ne (store : Store) (id1 id2 : GoString) (p2 : Int) (h : id1 ≠ id2) :
    Store.get (Store.put store id2 p2) id1 = Store.get store id1 := by
  simp only [Store.get, Store.put, h, if_false]

theorem processReceipt_store_ne (cv : FloatConv) (decode : GoString → Option Receipt)
    (id body : GoString) (store : Store) (key : GoString) (h : key ≠ id) :
    (processReceipt cv decode id body store).2 key = store key := by
  cases hd : decode body with
  | none => simp only [processReceipt, hd]
  | some r =>
    cases hc : calculatePoints cv r with
    | none => simp only [processReceipt, hd, hc]
    | some p => simp only [processReceipt, hd, hc, Store.put, h, if_false]

/-! ### Signs, ranges and permutations -/

/-- The score with the points of the pairs written out. -/
theorem calculatePoints_eq_pairs (cv : FloatConv) (r : Receipt) :
    calculatePoints cv r =
      ((Split r.PurchaseDate (ch '-'))[2]?).map (fun d =>
        wrap64 (retailerPoints r.Retailer + roundDollarPoints cv (ParseFloat r.Total).1
          + quarterPoints (ParseFloat r.Total).1
          + ((r.Items.length / 2 * 5 : Nat) : Int)
          + (r.Items.map (itemPoints cv)).sum + dayPoints d
          + hourPoints ((Split r.PurchaseTime (ch ':')).headD []))) := by
  rw [calculatePoints_eq]
  cases (Split r.PurchaseDate (ch '-'))[2]? with
  | none => simp only [Option.map_none']
  | some d =>
    simp only [Option.map_some', Option.some.injEq, pairPoints_eq]
    apply wrap64_congr
    have hp := wrap64_sub_emod ((r.Items.length / 2 * 5 : Nat) : Int)
    generalize wrap64 ((r.Items.length / 2 * 5 : Nat) : Int) = wp at hp ⊢
    omega

theorem fifth_eq : fifth = F64.fin (3602879701896397 * 2 ^ 1020) := by decide!

theorem toInt_range (cv : FloatConv) (x : F64) :
    minInt64 ≤ F64.toInt cv x ∧ F64.toInt cv x ≤ maxInt64 := by
  cases x with
  | nan => exact wrap64_range _
  | inf b => exact wrap64_range _
  | fin u =>
    simp only [F64.toInt]
    split_ifs with h
    · exact h
    · exact wrap64_range _

theorem mul_of_nonneg (u f : Int) (hu : 0 ≤ u) (hf : 0 ≤ f) :
    F64.mul (F64.fin u) (F64.fin f) = F64.inf false
      ∨ ∃ w : Int, 0 ≤ w ∧ F64.mul (F64.fin u) (F64.fin f) = F64.fin w := by
  have h1 : ¬ u < 0 := by omega
  have h2 : ¬ f < 0 := by omega
  simp only [F64.mul, F64.round, h1, h2, decide_False, bne_self_eq_false]
  by_cases hle : roundUnits (u.natAbs * f.natAbs) one ≤ maxUnits
  · right
    rw [if_pos hle]
    exact ⟨_, Int.natCast_nonneg _, rfl⟩
  · left
    rw [if_neg hle]

theorem mul_fifth_of_nonneg (u : Int) (hu : 0 ≤ u) :
    F64.mul (F64.fin u) fifth = F64.inf false
      ∨ ∃ w : Int, 0 ≤ w ∧ F64.mul (F64.fin u) fifth = F64.fin w := by
  rw [fifth_eq]
  exact mul_of_nonneg u _ hu (by positivity)

theorem Ceil_of_nonneg (w : Int) (hw : 0 ≤ w) :
    ∃ c : Int, 0 ≤ c ∧ F64.Ceil (F64.fin w) = F64.fin c := by
  refine ⟨_, ?_, rfl⟩
  have hpos : (0 : Int) < (one : Int) := by exact_mod_cast one_pos
  have hdiv : (-w) / (one : Int) ≤ 0 := by
    rcases lt_or_ge (-w) 0 with h | h
    · exact (Int.ediv_neg' h hpos).le
    · have : -w = 0 := by omega
      rw [this, Int.zero_ediv]
  exact Int.mul_nonneg (by omega) hpos.le

theorem toInt_nonneg (cv : FloatConv) (c : Int) (hc : 0 ≤ c)
    (h : (F64.fin c).inIntRange = true) : 0 ≤ F64.toInt cv (F64.fin c) := by
  simp only [F64.inIntRange, decide_eq_true_eq] at h
  simp only [F64.toInt, h, and_self, if_true]
  exact Int.tdiv_nonneg hc (by exact_mod_cast one_pos.le)

/-- An item with a price that is not negative adds points that are not negative,
when the conversion to `int` is defined. -/
theorem itemPoints_nonneg (cv : FloatConv) (item : Item) (u : Int) (hu : 0 ≤ u)
    (hprice : (ParseFloat item.Price).1 = F64.fin u)
    (hconv : (F64.Ceil (F64.mul (ParseFloat item.Price).1 fifth)).inIntRange = true) :
    0 ≤ itemPoints cv item := by
  unfold itemPoints
  split_ifs
  · rw [hprice] at hconv ⊢
    rcases mul_fifth_of_nonneg u hu with hm | ⟨w, hw, hm⟩
    · rw [hm] at hconv
      simp [F64.Ceil, F64.inIntRange] at hconv
    · rw [hm] at hconv ⊢
      obtain ⟨c, hc, hceil⟩ := Ceil_of_nonneg w hw
      rw [hceil] at hconv ⊢
      exact toInt_nonneg cv c hc hconv
  · exact le_rfl

theorem retailerPoints_nonneg (retailer : GoString) : 0 ≤ retailerPoints retailer := by
  rw [retailerPoints_eq]; exact Int.natCast_nonneg _

theorem roundDollarPoints_nonneg (cv : FloatConv) (t : F64) : 0 ≤ roundDollarPoints cv t := by
  unfold roundDollarPoints; split_ifs <;> decide

theorem quarterPoints_nonneg (t : F64) : 0 ≤ quarterPoints t := by
  unfold quarterPoints; split_ifs <;> decide

theorem dayPoints_nonneg (d : GoString) : 0 ≤ dayPoints d := by
  unfold dayPoints; split_ifs <;> decide

theorem hourPoints_nonneg (h : GoString) : 0 ≤ hourPoints h := by
  unfold hourPoints; split_ifs <;> decide

theorem two_pow_1072_dvd_one : (2 ^ 1072 : Int) ∣ (one : Int) := by
  have h : (2 ^ 1072 : Nat) ∣ one := two_pow_dvd_one 1072 (by norm_num)
  have h' := Int.natCast_dvd_natCast.2 h
  rwa [Nat.cast_pow] at h'

/-- A total that gets the 50 points of the round-dollar rule gets the 25 points
of the quarter-multiple rule. -/
theorem quarterPoints_of_roundDollarPoints (cv : FloatConv) (t : F64)
    (h : roundDollarPoints cv t = 50) : quarterPoints t = 25 := by
  unfold roundDollarPoints at h
  have heq : F64.eq t (F64.ofInt (F64.toInt cv t)) = true := by
    by_contra hcon
    rw [if_neg hcon] at h
    exact absurd h (by decide)
  have hr := toInt_range cv t
  obtain ⟨he, -⟩ := F64.ofInt_eq _ (natAbs_le_of_range _ hr.1 hr.2)
  rw [he] at heq
  cases t with
  | nan => simp [F64.eq] at heq
  | inf b => simp [F64.eq] at heq
  | fin u =>
    simp only [F64.eq, decide_eq_true_eq] at heq
    have hd : (one : Int) ∣ u := by
      have hR : (one : Int) ∣
          (roundUnits ((F64.toInt cv (F64.fin u)).natAbs * one) 1 : Int) :=
        Int.natCast_dvd_natCast.2 (one_dvd_roundUnits _)
      rw [heq]
      split_ifs
      · exact (Int.dvd_neg).2 hR
      · exact hR
    rw [quarterPoints_eq]
    have hq : (2 ^ 1072 : Int) ∣ u := dvd_trans two_pow_1072_dvd_one hd
    simp only [F64.isQuarterMultiple, hq, decide_True, if_true]

theorem calculatePoints_perm (cv : FloatConv) (r : Receipt) (items : List Item)
    (h : items.Perm r.Items) :
    calculatePoints cv { r with Items := items } = calculatePoints cv r := by
  rw [calculatePoints_eq_pairs, calculatePoints_eq_pairs]
  simp only [h.length_eq, (h.map (itemPoints cv)).sum_eq]

/-! ### The claims -/

/-- C1: `calculatePoints` is not total. It panics (index out of range at
`dateParts[2]`) exactly on the receipts whose purchase date has fewer than three
dash-separated fields, whatever the implementation; the receipt that the body
`{}` decodes to is one of them. -/
theorem calculatePoints_panics_iff_short_date :
    (∀ (cv : FloatConv) (r : Receipt),
      calculatePoints cv r = none ↔ (Split r.PurchaseDate (ch '-')).length < 3)
    ∧ (∀ cv : FloatConv, calculatePoints cv zeroReceipt = none) := by
  refine ⟨calculatePoints_eq_none_iff, fun cv => ?_⟩
  rw [calculatePoints_eq_none_iff]
  decide

/-- C2: on a purchase date with fewer than three dash-separated fields
`calculatePoints` does not complete: it panics, while the same receipt with the
date "2022-01-02" has a score. -/
theorem calculatePoints_short_date_panics (cv : FloatConv) (r : Receipt)
    (h : (Split r.PurchaseDate (ch '-')).length < 3) :
    calculatePoints cv r = none
      ∧ calculatePoints cv { r with PurchaseDate := utf8 "2022-01-02" } ≠ none := by
  constructor
  · exact (calculatePoints_eq_none_iff cv r).2 h
  · rw [Ne, calculatePoints_eq_none_iff]
    show ¬ (Split (utf8 "2022-01-02") (ch '-')).length < 3
    decide

/-- C2 at the date "2022/01/01" of the Target receipt: the panic, and the score
22 of the receipt dated "2022-01-02". -/
theorem calculatePoints_slash_date_panics :
    (Split (utf8 "2022/01/01") (ch '-')).length < 3
      ∧ calculatePoints amd64 { targetReceipt with PurchaseDate := utf8 "2022/01/01" } = none
      ∧ calculatePoints amd64 { targetReceipt with PurchaseDate := utf8 "2022-01-02" }
          = some 22 :=
  ⟨by decide,
   (calculatePoints_short_date_panics amd64
      { targetReceipt with PurchaseDate := utf8 "2022/01/01" } (by decide)).1,
   by decide!⟩

/-- C3: the Target example receipt scores exactly 28, on every implementation. -/
theorem target_receipt_points (cv : FloatConv) :
    calculatePoints cv targetReceipt = some 28 :=
  (calculatePoints_conv cv amd64 targetReceipt (by decide!)).trans (by decide!)

/-- C4: the M&M Corner Market example receipt, with its four Gatorade items,
scores exactly 109, on every implementation. -/
theorem corner_market_receipt_points (cv : FloatConv) :
    calculatePoints cv cornerMarketReceipt = some 109 :=
  (calculatePoints_conv cv amd64 cornerMarketReceipt (by decide!)).trans (by decide!)

/-- C5: whenever `processReceipt` stores the points of a receipt under `id`, a
`getPoints` on the path of `id` right after it answers with exactly those
points; and a lookup of a key just assigned finds the assigned points, also
when the key was already present. -/
theorem submit_then_retrieve (cv : FloatConv) (decode : GoString → Option Receipt)
    (id body : GoString) (store : Store) (r : Receipt) (p : Int)
    (hdecode : decode body = some r) (hpoints : calculatePoints cv r = some p) :
    (processReceipt cv decode id body store).2 = Store.put store id p
      ∧ getPoints (pointsPath id) (processReceipt cv decode id body store).2
          = (Response.pointsResponse p, Store.put store id p)
      ∧ ∀ (s : Store) (key : GoString) (q : Int),
          Store.get (Store.put s key q) key = (q, true) := by
  have hstore : (processReceipt cv decode id body store).2 = Store.put store id p := by
    simp only [processReceipt, hdecode, hpoints]
  refine ⟨hstore, ?_, Store.get_put⟩
  rw [hstore]
  simp only [getPoints, TrimSuffix_TrimPrefix_pointsPath, Store.get_put]
  rfl

/-- C5 for the Target receipt submitted to the empty store. -/
theorem submit_then_retrieve_target :
    getPoints (pointsPath (utf8 "7fb1377b-b223-49d9-a31a-5a02701dd310"))
        (processReceipt amd64 (fun _ => some targetReceipt)
          (utf8 "7fb1377b-b223-49d9-a31a-5a02701dd310") [] Store.empty).2
      = (Response.pointsResponse 28,
          Store.put Store.empty (utf8 "7fb1377b-b223-49d9-a31a-5a02701dd310") 28) :=
  (submit_then_retrieve amd64 (fun _ => some targetReceipt)
    (utf8 "7fb1377b-b223-49d9-a31a-5a02701dd310") [] Store.empty targetReceipt 28 rfl
    (by decide!)).2.1

/-- C6, as the claim states it, fails on texts that are out of range: `Atoi` of
the day "99999999999999999999" returns the largest `int` (odd) with its range
error, so the Target receipt with that day scores 28 and with the day "0" it
scores 22; `ParseFloat` of the total "1e999" returns +Inf with its range error,
so the Target receipt with that total scores 28 and with the total "0" it
scores 103. -/
theorem zero_fallback_fails_out_of_range :
    (Atoi (utf8 "99999999999999999999")).2 = some NumError.ErrRange
    ∧ calculatePoints amd64
        { targetReceipt with PurchaseDate := utf8 "2022-01-99999999999999999999" } = some 28
    ∧ calculatePoints amd64 { targetReceipt with PurchaseDate := utf8 "2022-01-0" } = some 22
    ∧ (ParseFloat (utf8 "1e999")).2 = some NumError.ErrRange
    ∧ calculatePoints amd64 { targetReceipt with Total := utf8 "1e999" } = some 28
    ∧ calculatePoints amd64 { targetReceipt with Total := utf8 "0" } = some 103 := by
  decide!

/-- C6, amended: a numeric field whose text is a syntax error counts as "0".
For the total, for the price of any item, for the day field of the date and for
the hour field of the time, if the text fails to parse with a syntax error then
the result of `calculatePoints` is the one for the receipt with that text
replaced by "0"; for the hour field the same holds for a range error too. -/
theorem zero_fallback_on_syntax_error (cv : FloatConv) (r : Receipt) :
    ((ParseFloat r.Total).2 = some NumError.ErrSyntax →
        calculatePoints cv r = calculatePoints cv { r with Total := utf8 "0" })
    ∧ (∀ (pre post : List Item) (item : Item), r.Items = pre ++ item :: post →
        (ParseFloat item.Price).2 = some NumError.ErrSyntax →
        calculatePoints cv r
          = calculatePoints cv
              { r with Items := pre ++ { item with Price := utf8 "0" } :: post })
    ∧ (∀ (date' y m d : GoString) (rest : List GoString),
        Split r.PurchaseDate (ch '-') = y :: m :: d :: rest →
        Split date' (ch '-') = y :: m :: utf8 "0" :: rest →
        (Atoi d).2 = some NumError.ErrSyntax →
        calculatePoints cv r = calculatePoints cv { r with PurchaseDate := date' })
    ∧ (∀ (time' h : GoString) (rest : List GoString),
        Split r.PurchaseTime (ch ':') = h :: rest →
        Split time' (ch ':') = utf8 "0" :: rest →
        (Atoi h).2 ≠ none →
        calculatePoints cv r = calculatePoints cv { r with PurchaseTime := time' }) := by
  refine ⟨?_, ?_, ?_, ?_⟩
  · intro h
    rw [calculatePoints_eq, calculatePoints_eq]
    simp only [ParseFloat_syntax_value _ h, ParseFloat_zero]
  · intro pre post item hitems h
    rw [calculatePoints_eq, calculatePoints_eq]
    simp only [hitems, List.map_append, List.map_cons, itemPoints_syntax_price cv item h,
      pairPoints, len, List.length_append, List.length_cons]
  · intro date' y m d rest hsplit hsplit' h
    rw [calculatePoints_eq, calculatePoints_eq]
    simp only [hsplit, hsplit', List.getElem?_cons_succ, List.getElem?_cons_zero,
      Option.map_some', dayPoints, Atoi_syntax_value d h, Atoi_zero]
  · intro time' h rest hsplit hsplit' he
    rw [calculatePoints_eq, calculatePoints_eq]
    simp only [hsplit, hsplit', List.headD_cons, hourPoints_of_error h he,
      hourPoints_of_error]
    have h0 : hourPoints (utf8 "0") = 0 := by decide
    rw [h0]

/-- C6, amended, at the receipt with total "35,35", item price "1.2.3", date
"2022-01-xx" and time "1pm:01": each of the four texts can be replaced by "0". -/
theorem zero_fallback_on_syntax_error_example :
    calculatePoints amd64
        ⟨utf8 "Target", utf8 "2022-01-xx", utf8 "1pm:01", utf8 "35,35",
          [⟨utf8 "abc", utf8 "1.2.3"⟩]⟩
      = calculatePoints amd64
          ⟨utf8 "Target", utf8 "2022-01-xx", utf8 "1pm:01", utf8 "0",
            [⟨utf8 "abc", utf8 "1.2.3"⟩]⟩
    ∧ calculatePoints amd64
        ⟨utf8 "Target", utf8 "2022-01-xx", utf8 "1pm:01", utf8 "35,35",
          [⟨utf8 "abc", utf8 "1.2.3"⟩]⟩
      = calculatePoints amd64
          ⟨utf8 "Target", utf8 "2022-01-xx", utf8 "1pm:01", utf8 "35,35",
            [] ++ [⟨utf8 "abc", utf8 "0"⟩]⟩
    ∧ calculatePoints amd64
        ⟨utf8 "Target", utf8 "2022-01-xx", utf8 "1pm:01", utf8 "35,35",
          [⟨utf8 "abc", utf8 "1.2.3"⟩]⟩
      = calculatePoints amd64
          ⟨utf8 "Target", utf8 "2022-01-0", utf8 "1pm:01", utf8 "35,35",
            [⟨utf8 "abc", utf8 "1.2.3"⟩]⟩
    ∧ calculatePoints amd64
        ⟨utf8 "Target", utf8 "2022-01-xx", utf8 "1pm:01", utf8 "35,35",
          [⟨utf8 "abc", utf8 "1.2.3"⟩]⟩
      = calculatePoints amd64
          ⟨utf8 "Target", utf8 "2022-01-xx", utf8 "0:01", utf8 "35,35",
            [⟨utf8 "abc", utf8 "1.2.3"⟩]⟩ :=
  ⟨(zero_fallback_on_syntax_error amd64 _).1 (by decide!),
   (zero_fallback_on_syntax_error amd64 _).2.1 [] [] ⟨utf8 "abc", utf8 "1.2.3"⟩ rfl (by decide!),
   (zero_fallback_on_syntax_error amd64 _).2.2.1 (utf8 "2022-01-0") (utf8 "2022") (utf8 "01")
      (utf8 "xx") [] (by decide) (by decide) (by decide),
   (zero_fallback_on_syntax_error amd64 _).2.2.2 (utf8 "0:01") (utf8 "1pm") [utf8 "01"]
      (by decide) (by decide) (by decide)⟩

/-- C7, as the claim states it, fails on a price that is out of range:
`ParseFloat` of "1e999" fails with a range error and returns +Inf, not 0, and
the item adds `int(+Inf)`: on amd64 and on arm64 the receipt with the one item
("abc", "1e999") scores below zero, where the price 0 of the claim gives 75. -/
theorem item_rule_fails_out_of_range_price :
    ParseFloat (utf8 "1e999") = (F64.inf false, some NumError.ErrRange)
    ∧ specItemPoints amd64 ⟨utf8 "abc", utf8 "1e999"⟩ = 0
    ∧ itemPoints amd64 ⟨utf8 "abc", utf8 "1e999"⟩ = -9223372036854775808
    ∧ itemPoints arm64 ⟨utf8 "abc", utf8 "1e999"⟩ = 9223372036854775807
    ∧ calculatePoints amd64
        ⟨[], utf8 "2022-01-02", [], [], [⟨utf8 "abc", utf8 "1e999"⟩]⟩
        = some (-9223372036854775733)
    ∧ calculatePoints arm64
        ⟨[], utf8 "2022-01-02", [], [], [⟨utf8 "abc", utf8 "1e999"⟩]⟩
        = some (-9223372036854775734)
    ∧ calculatePoints amd64
        ⟨[], utf8 "2022-01-02", [], [], [⟨utf8 "abc", utf8 "0"⟩]⟩ = some 75 := by
  decide!

/-- C7, amended: the score is the score of the receipt without its items, plus
the points of the item pairs, plus the sum over the items whose trimmed
description has a length divisible by 3 of `int(math.Ceil(price * 0.2))`, all in
`float64` and 64-bit `int` arithmetic, where `price` is what `ParseFloat`
returns. A price with a syntax error adds 0; the other items add nothing; an
item whose trimmed description is empty does qualify, and a description of
ASCII white space only is trimmed to the empty string. -/
theorem item_rule (cv : FloatConv) (r : Receipt) :
    calculatePoints cv r
        = (calculatePoints cv { r with Items := [] }).map (fun base =>
            wrap64 (base + pairPoints r.Items
              + ((r.Items.filter descriptionQualifies).map (fun item =>
                  F64.toInt cv (F64.Ceil (F64.mul (ParseFloat item.Price).1 fifth)))).sum))
    ∧ (∀ item : Item, (ParseFloat item.Price).2 = some NumError.ErrSyntax →
        F64.toInt cv (F64.Ceil (F64.mul (ParseFloat item.Price).1 fifth)) = 0)
    ∧ (∀ item : Item, TrimSpace item.ShortDescription = [] →
        descriptionQualifies item = true)
    ∧ (∀ desc : GoString, (∀ c ∈ desc, asciiSpace c = true) → TrimSpace desc = []) := by
  refine ⟨?_, ?_, ?_, TrimSpace_of_asciiSpace⟩
  · rw [calculatePoints_eq, calculatePoints_eq]
    cases (Split r.PurchaseDate (ch '-'))[2]? with
    | none => rfl
    | some d =>
      simp only [Option.map_some', List.map_nil, List.sum_nil, pairPoints_nil, add_zero,
        ← sum_itemPoints, Option.some.injEq]
      conv_rhs => rw [add_assoc, wrap64_add_left]
      congr 1
      omega
  · intro item h
    rw [ParseFloat_syntax_value _ h, Ceil_mul_zero, toInt_zero]
  · intro item h
    simp only [descriptionQualifies, h]
    decide

/-- C8, as the claim states it, fails in both directions. The total
"0.99999999999999999999" is a decimal number with a fractional part, and its
`float64` is 1, so the rule adds 50 (the Target receipt with this total scores
103). The total "10000000000000000000" is a whole number, and it does not fit
an `int`, so the rule adds nothing, on amd64 and on arm64. -/
theorem round_dollar_fails_on_decimal_text :
    specRoundDollarPoints (utf8 "0.99999999999999999999") = some 0
    ∧ roundDollarPoints amd64 (ParseFloat (utf8 "0.99999999999999999999")).1 = 50
    ∧ calculatePoints amd64 { targetReceipt with Total := utf8 "0.99999999999999999999" }
        = some 103
    ∧ specRoundDollarPoints (utf8 "10000000000000000000") = some 50
    ∧ roundDollarPoints amd64 (ParseFloat (utf8 "10000000000000000000")).1 = 0
    ∧ roundDollarPoints arm64 (ParseFloat (utf8 "10000000000000000000")).1 = 0 := by
  decide!

/-- C8, amended: with `t` the `float64` that `ParseFloat` returns for the total
(0 on a syntax error), and `t` other than `2^63`, the round-dollar rule adds
exactly 50 points if `t` is a whole number with `-2^63 <= t < 2^63`, and 0
otherwise, on every implementation; the score is the sum of that and of the
points of the other rules. -/
theorem round_dollar_rule (cv : FloatConv) (r : Receipt)
    (hne : (ParseFloat r.Total).1 ≠ intLimit) :
    roundDollarPoints cv (ParseFloat r.Total).1
        = (if (ParseFloat r.Total).1.isWholeInt then 50 else 0)
    ∧ calculatePoints cv r =
        ((Split r.PurchaseDate (ch '-'))[2]?).map (fun d =>
          wrap64 (retailerPoints r.Retailer
            + (if (ParseFloat r.Total).1.isWholeInt then 50 else 0)
            + quarterPoints (ParseFloat r.Total).1 + pairPoints r.Items
            + (r.Items.map (itemPoints cv)).sum + dayPoints d
            + hourPoints ((Split r.PurchaseTime (ch ':')).headD []))) := by
  have h := roundDollarPoints_eq cv (ParseFloat r.Total).1
    (fun u hu => ParseFloat_representable r.Total u hu) hne
  refine ⟨h, ?_⟩
  rw [calculatePoints_eq, h]

/-- C8, amended, at the two example receipts: the total "9.00" is whole and adds
50, the total "35.35" is not and adds 0. -/
theorem round_dollar_rule_examples :
    roundDollarPoints amd64 (ParseFloat cornerMarketReceipt.Total).1 = 50
    ∧ roundDollarPoints amd64 (ParseFloat targetReceipt.Total).1 = 0 :=
  ⟨(round_dollar_rule amd64 cornerMarketReceipt (by decide!)).1.trans (by decide!),
   (round_dollar_rule amd64 targetReceipt (by decide!)).1.trans (by decide!)⟩

/-- C9, as the claim states it, fails in both directions. The total
"0.2500000000000000000001" is not a multiple of 0.25, and its `float64` is
0.25, so the rule adds 25 (the Target receipt with this total scores 53). The
total "1e400" is a multiple of 0.25, and `ParseFloat` returns +Inf for it, so
the rule adds nothing. -/
theorem quarter_multiple_fails_on_decimal_text :
    specQuarterPoints (utf8 "0.2500000000000000000001") = some 0
    ∧ quarterPoints (ParseFloat (utf8 "0.2500000000000000000001")).1 = 25
    ∧ calculatePoints amd64 { targetReceipt with Total := utf8 "0.2500000000000000000001" }
        = some 53
    ∧ specQuarterPoints (utf8 "1e400") = some 25
    ∧ quarterPoints (ParseFloat (utf8 "1e400")).1 = 0 := by
  decide!

/-- C9, amended: with `t` the `float64` that `ParseFloat` returns for the total
(0 on a syntax error), the quarter-multiple rule adds exactly 25 points if `t`
is finite and an exact multiple of 0.25, and 0 otherwise; the score is the sum
of that and of the points of the other rules. -/
theorem quarter_multiple_rule (cv : FloatConv) (r : Receipt) :
    quarterPoints (ParseFloat r.Total).1
        = (if (ParseFloat r.Total).1.isQuarterMultiple then 25 else 0)
    ∧ calculatePoints cv r =
        ((Split r.PurchaseDate (ch '-'))[2]?).map (fun d =>
          wrap64 (retailerPoints r.Retailer + roundDollarPoints cv (ParseFloat r.Total).1
            + (if (ParseFloat r.Total).1.isQuarterMultiple then 25 else 0)
            + pairPoints r.Items
            + (r.Items.map (itemPoints cv)).sum + dayPoints d
            + hourPoints ((Split r.PurchaseTime (ch ':')).headD []))) := by
  refine ⟨quarterPoints_eq _, ?_⟩
  rw [calculatePoints_eq, quarterPoints_eq]

/-- C10: the result of `calculatePoints` is the one for the receipt with the
empty retailer, plus (in the 64-bit arithmetic of `int`) the number of bytes of
the retailer that are ASCII letters or digits; the sum is the exact one
whenever it does not pass the largest `int`. No byte at or above `0x80`, so no
part of a non-ASCII character, is counted, and no space or punctuation. -/
theorem retailer_rule (cv : FloatConv) (r : Receipt) :
    calculatePoints cv r
        = (calculatePoints cv { r with Retailer := utf8 "" }).map (fun p =>
            wrap64 (p + (r.Retailer.countP alphanumeric : Nat)))
    ∧ (∀ p : Int, calculatePoints cv { r with Retailer := utf8 "" } = some p →
        p + (r.Retailer.countP alphanumeric : Nat) ≤ maxInt64 →
        calculatePoints cv r = some (p + (r.Retailer.countP alphanumeric : Nat)))
    ∧ (∀ c : UInt8, alphanumeric c = true ↔
        (ch 'a' ≤ c ∧ c ≤ ch 'z') ∨ (ch 'A' ≤ c ∧ c ≤ ch 'Z') ∨ (ch '0' ≤ c ∧ c ≤ ch '9'))
    ∧ (∀ c : UInt8, alphanumeric c = true → c < 0x80) := by
  have hmain : calculatePoints cv r
      = (calculatePoints cv { r with Retailer := utf8 "" }).map (fun p =>
          wrap64 (p + (r.Retailer.countP alphanumeric : Nat))) := by
    rw [calculatePoints_eq, calculatePoints_eq]
    cases (Split r.PurchaseDate (ch '-'))[2]? with
    | none => rfl
    | some d =>
      have h0 : retailerPoints (utf8 "") = 0 := by decide
      simp only [Option.map_some', h0, zero_add, Option.some.injEq, retailerPoints_eq]
      conv_rhs => rw [wrap64_add_left]
      congr 1
      omega
  refine ⟨hmain, ?_, ?_, alphanumeric_ascii⟩
  · intro p hp hle
    have hr := calculatePoints_range cv _ p hp
    rw [hmain, hp, Option.map_some']
    congr 1
    apply wrap64_of_range
    · have : (0 : Int) ≤ (r.Retailer.countP alphanumeric : Nat) := Int.natCast_nonneg _
      omega
    · exact hle
  · intro c
    simp only [alphanumeric, decide_eq_true_eq]

/-- C11, as the claim states it, fails on a day that is out of range: the field
"9223372036854775808" does not parse (`Atoi` reports a range error), and the
rule adds 6, since `Atoi` returns the largest `int`, which is odd: the Target
receipt with this day scores 28, as with an odd day, where an even or unparsed
day gives 22. -/
theorem odd_day_fails_out_of_range :
    Atoi (utf8 "9223372036854775808") = (9223372036854775807, some NumError.ErrRange)
    ∧ dayPoints (utf8 "9223372036854775808") = 6
    ∧ calculatePoints amd64
        { targetReceipt with PurchaseDate := utf8 "2022-01-9223372036854775808" } = some 28
    ∧ calculatePoints amd64 { targetReceipt with PurchaseDate := utf8 "2022-01-02" }
        = some 22 := by
  decide!

/-- C11, amended: on a date with at least three dash-separated fields, the
odd-day rule adds exactly 6 points if the `int` that `Atoi` returns for the
third field is odd and 0 if it is even. That `int` is even (it is 0) when the
field is a syntax error, and odd (it is the largest `int`) when the field is
out of range. -/
theorem odd_day_rule (cv : FloatConv) (r : Receipt) (y m d : GoString)
    (rest : List GoString) (h : Split r.PurchaseDate (ch '-') = y :: m :: d :: rest) :
    calculatePoints cv r
        = some (wrap64 (retailerPoints r.Retailer
            + roundDollarPoints cv (ParseFloat r.Total).1
            + quarterPoints (ParseFloat r.Total).1 + pairPoints r.Items
            + (r.Items.map (itemPoints cv)).sum
            + (if (Atoi d).1 % 2 = 1 then 6 else 0)
            + hourPoints ((Split r.PurchaseTime (ch ':')).headD [])))
    ∧ ((Atoi d).2 = some NumError.ErrSyntax → (Atoi d).1 % 2 = 0)
    ∧ ((Atoi d).2 = some NumError.ErrRange → (Atoi d).1 % 2 = 1) := by
  have hd : ch '-' ∉ d := by
    apply Split_no_sep r.PurchaseDate (ch '-') d
    rw [h]
    simp
  refine ⟨?_, ?_, ?_⟩
  · rw [calculatePoints_eq, h]
    simp only [List.getElem?_cons_succ, List.getElem?_cons_zero, Option.map_some',
      dayPoints_of_no_dash d hd]
  · intro he
    rw [Atoi_syntax_value d he]
    rfl
  · intro he
    rw [(Atoi_of_no_dash d hd).2 he]
    decide

/-- C11, amended, at the Target receipt: the day "01" is odd and adds 6. -/
theorem odd_day_rule_target :
    Split targetReceipt.PurchaseDate (ch '-') = [utf8 "2022", utf8 "01", utf8 "01"]
    ∧ (Atoi (utf8 "01")).1 % 2 = 1
    ∧ calculatePoints amd64 targetReceipt = some (wrap64 (6 + 0 + 0 + 10 + 6 + 6 + 0)) :=
  ⟨by decide, by decide,
   (odd_day_rule amd64 targetReceipt (utf8 "2022") (utf8 "01") (utf8 "01") []
      (by decide)).1.trans (by decide!)⟩

/-- C12, as the claim states it, fails on a time without a colon: "14" has no
colon, it is its own first field, and the rule adds 10: the Target receipt with
this time scores 38, not 28. -/
theorem afternoon_fails_without_colon :
    ch ':' ∉ utf8 "14"
    ∧ Split (utf8 "14") (ch ':') = [utf8 "14"]
    ∧ hourPoints (utf8 "14") = 10
    ∧ calculatePoints amd64 { targetReceipt with PurchaseTime := utf8 "14" } = some 38
    ∧ calculatePoints amd64 targetReceipt = some 28 := by
  decide!

/-- C12, amended: the time rule adds exactly 10 points if the `int` that `Atoi`
returns for the first colon-separated field of the purchase time satisfies
`14 <= hour < 16`, and 0 otherwise. A first field that does not parse (not a
number, empty, out of range) adds 0; a time without a colon is its own first
field; and no purchase time makes `calculatePoints` panic. -/
theorem afternoon_rule (cv : FloatConv) (r : Receipt) :
    calculatePoints cv r =
        ((Split r.PurchaseDate (ch '-'))[2]?).map (fun d =>
          wrap64 (retailerPoints r.Retailer + roundDollarPoints cv (ParseFloat r.Total).1
            + quarterPoints (ParseFloat r.Total).1 + pairPoints r.Items
            + (r.Items.map (itemPoints cv)).sum + dayPoints d
            + (if 14 ≤ (Atoi ((Split r.PurchaseTime (ch ':')).headD [])).1
                  ∧ (Atoi ((Split r.PurchaseTime (ch ':')).headD [])).1 < 16
                then 10 else 0)))
    ∧ (∀ h : GoString, (Atoi h).2 ≠ none → hourPoints h = 0)
    ∧ hourPoints (utf8 "") = 0
    ∧ (ch ':' ∉ r.PurchaseTime → Split r.PurchaseTime (ch ':') = [r.PurchaseTime])
    ∧ (∀ time : GoString,
        calculatePoints cv { r with PurchaseTime := time } = none
          ↔ calculatePoints cv r = none) := by
  refine ⟨?_, hourPoints_of_error, by decide, Split_of_no_sep _ _, ?_⟩
  · rw [calculatePoints_eq]
    rfl
  · intro time
    rw [calculatePoints_eq_none_iff, calculatePoints_eq_none_iff]

/-- C13: the item-pair rule adds (in the 64-bit arithmetic of `int`) exactly
`floor(n / 2) * 5` points for a receipt with `n` items, the exact number
whenever it fits an `int`; it depends on the number of items only, and it is 0
for no item and for one item. -/
theorem item_pair_rule (cv : FloatConv) (r : Receipt) :
    calculatePoints cv r =
        ((Split r.PurchaseDate (ch '-'))[2]?).map (fun d =>
          wrap64 (retailerPoints r.Retailer + roundDollarPoints cv (ParseFloat r.Total).1
            + quarterPoints (ParseFloat r.Total).1
            + ((r.Items.length / 2 * 5 : Nat) : Int)
            + (r.Items.map (itemPoints cv)).sum + dayPoints d
            + hourPoints ((Split r.PurchaseTime (ch ':')).headD [])))
    ∧ pairPoints r.Items = wrap64 ((r.Items.length / 2 * 5 : Nat) : Int)
    ∧ (((r.Items.length / 2 * 5 : Nat) : Int) ≤ maxInt64 →
        pairPoints r.Items = ((r.Items.length / 2 * 5 : Nat) : Int))
    ∧ (∀ items : List Item, items.length = r.Items.length →
        pairPoints items = pairPoints r.Items)
    ∧ pairPoints [] = 0
    ∧ (∀ item : Item, pairPoints [item] = 0) := by
  refine ⟨calculatePoints_eq_pairs cv r, pairPoints_eq _, ?_, ?_, pairPoints_nil, ?_⟩
  · intro hle
    rw [pairPoints_eq]
    apply wrap64_of_range _ _ hle
    have : (0 : Int) ≤ ((r.Items.length / 2 * 5 : Nat) : Int) := Int.natCast_nonneg _
    unfold minInt64
    omega
  · intro items hlen
    rw [pairPoints_eq, pairPoints_eq, hlen]
  · intro item
    rw [pairPoints_eq, List.length_singleton]
    decide

/-- C14: a `getPoints` whose identifier is not a key of the store answers 404
with the message of `http.Error` and no points, and leaves the store as it was:
for every request path, for the path of every identifier, and for every path
against the initial empty store. -/
theorem lookup_miss (store : Store) :
    (∀ path : GoString,
        store (TrimSuffix (TrimPrefix path (utf8 "/receipts/")) (utf8 "/points")) = none →
        getPoints path store
          = (Response.error (utf8 "No receipt found for that ID") StatusNotFound, store))
    ∧ (∀ id : GoString, store id = none →
        getPoints (pointsPath id) store
          = (Response.error (utf8 "No receipt found for that ID") StatusNotFound, store))
    ∧ (∀ path : GoString,
        getPoints path Store.empty
          = (Response.error (utf8 "No receipt found for that ID") StatusNotFound,
              Store.empty))
    ∧ StatusNotFound = 404 := by
  refine ⟨fun path h => getPoints_of_none path store h, fun id h => ?_,
    fun path => getPoints_of_none path Store.empty rfl, rfl⟩
  apply getPoints_of_none
  rw [TrimSuffix_TrimPrefix_pointsPath]
  exact h

/-- C15: a record is not touched by what happens under another identifier.
Storing under `id2` leaves the lookup of `id1` unchanged; after the same
receipt is submitted under `id1` and then under `id2`, both paths answer with
its points; no later submission under another identifier and no retrieval
changes what `id1` holds. -/
theorem independent_retrieval (cv : FloatConv) (decode : GoString → Option Receipt)
    (id1 id2 body : GoString) (store : Store) (r : Receipt) (p : Int)
    (hne : id1 ≠ id2) (hdecode : decode body = some r)
    (hpoints : calculatePoints cv r = some p) :
    (∀ (s : Store) (p2 : Int), Store.get (Store.put s id2 p2) id1 = Store.get s id1)
    ∧ (getPoints (pointsPath id1)
          (processReceipt cv decode id2 body (processReceipt cv decode id1 body store).2).2).1
        = Response.pointsResponse p
    ∧ (getPoints (pointsPath id2)
          (processReceipt cv decode id2 body (processReceipt cv decode id1 body store).2).2).1
        = Response.pointsResponse p
    ∧ (∀ (cv' : FloatConv) (decode' : GoString → Option Receipt) (id' body' : GoString)
          (s : Store), id' ≠ id1 →
        Store.get (processReceipt cv' decode' id' body' s).2 id1 = Store.get s id1)
    ∧ (∀ (path : GoString) (s : Store), (getPoints path s).2 = s) := by
  have h1 : (processReceipt cv decode id1 body store).2 = Store.put store id1 p := by
    simp only [processReceipt, hdecode, hpoints]
  have h2 : ∀ s, (processReceipt cv decode id2 body s).2 = Store.put s id2 p := by
    intro s
    simp only [processReceipt, hdecode, hpoints]
  refine ⟨fun s p2 => Store.get_put_ne s id1 id2 p2 hne, ?_, ?_, ?_, getPoints_store⟩
  · rw [h1, h2, getPoints_of_some _ _ p]
    rw [TrimSuffix_TrimPrefix_pointsPath]
    simp only [Store.put, hne, if_false, if_true]
  · rw [h1, h2, getPoints_of_some _ _ p]
    rw [TrimSuffix_TrimPrefix_pointsPath]
    simp only [Store.put, if_true]
  · intro cv' decode' id' body' s hid
    simp only [Store.get, processReceipt_store_ne cv' decode' id' body' s id1 (Ne.symm hid)]

/-- C15 for the Target receipt submitted twice to the empty store. -/
theorem independent_retrieval_target :
    (getPoints (pointsPath (utf8 "id-1"))
        (processReceipt amd64 (fun _ => some targetReceipt) (utf8 "id-2") []
          (processReceipt amd64 (fun _ => some targetReceipt) (utf8 "id-1") []
            Store.empty).2).2).1
      = Response.pointsResponse 28
    ∧ (getPoints (pointsPath (utf8 "id-2"))
        (processReceipt amd64 (fun _ => some targetReceipt) (utf8 "id-2") []
          (processReceipt amd64 (fun _ => some targetReceipt) (utf8 "id-1") []
            Store.empty).2).2).1
      = Response.pointsResponse 28 :=
  ⟨(independent_retrieval amd64 (fun _ => some targetReceipt) (utf8 "id-1") (utf8 "id-2") []
      Store.empty targetReceipt 28 (by decide) rfl (by decide!)).2.1,
   (independent_retrieval amd64 (fun _ => some targetReceipt) (utf8 "id-1") (utf8 "id-2") []
      Store.empty targetReceipt 28 (by decide) rfl (by decide!)).2.2.1⟩

/-- C16, as the claim states it, fails when the sum of the points passes the
largest `int`. The receipt is well formed (retailer "Target", date
"2022-01-01", time "13:01", total "35.35") and its two prices parse, exactly,
to the non-negative number 23058430092136939520; each item adds 2^62 points,
every conversion to `int` is defined, and the score, 2^63 + 17 reduced to 64
bits, is negative, on amd64 as on arm64. -/
theorem nonnegative_fails_on_overflow :
    ParseFloat (utf8 "23058430092136939520")
        = (F64.fin (23058430092136939520 * one), none)
    ∧ decimalValue (utf8 "23058430092136939520") = some (false, 23058430092136939520, 1)
    ∧ itemPoints amd64 ⟨utf8 "abc", utf8 "23058430092136939520"⟩ = 2 ^ 62
    ∧ conversionsDefined largePricesReceipt = true
    ∧ calculatePoints amd64 largePricesReceipt = some (-9223372036854775791)
    ∧ calculatePoints arm64 largePricesReceipt = some (-9223372036854775791) := by
  decide!

/-- C16, amended: for a receipt whose date has a third field and whose prices
all parse to numbers that are not negative, if every conversion
`int(math.Ceil(price * 0.2))` is defined and the sum of the points of the seven
rules does not pass the largest `int`, then `calculatePoints` returns that sum,
and it is not negative. -/
theorem nonnegative_without_overflow (cv : FloatConv) (r : Receipt) (d : GoString)
    (hdate : (Split r.PurchaseDate (ch '-'))[2]? = some d)
    (hprice : ∀ item ∈ r.Items, (ParseFloat item.Price).1.isNonneg = true)
    (hconv : ∀ item ∈ r.Items,
      (F64.Ceil (F64.mul (ParseFloat item.Price).1 fifth)).inIntRange = true)
    (hsum : retailerPoints r.Retailer + roundDollarPoints cv (ParseFloat r.Total).1
        + quarterPoints (ParseFloat r.Total).1 + ((r.Items.length / 2 * 5 : Nat) : Int)
        + (r.Items.map (itemPoints cv)).sum + dayPoints d
        + hourPoints ((Split r.PurchaseTime (ch ':')).headD []) ≤ maxInt64) :
    calculatePoints cv r
        = some (retailerPoints r.Retailer + roundDollarPoints cv (ParseFloat r.Total).1
            + quarterPoints (ParseFloat r.Total).1 + ((r.Items.length / 2 * 5 : Nat) : Int)
            + (r.Items.map (itemPoints cv)).sum + dayPoints d
            + hourPoints ((Split r.PurchaseTime (ch ':')).headD []))
    ∧ ∃ p : Int, calculatePoints cv r = some p ∧ 0 ≤ p := by
  have h1 := retailerPoints_nonneg r.Retailer
  have h2 := roundDollarPoints_nonneg cv (ParseFloat r.Total).1
  have h3 := quarterPoints_nonneg (ParseFloat r.Total).1
  have h4 : (0 : Int) ≤ ((r.Items.length / 2 * 5 : Nat) : Int) := Int.natCast_nonneg _
  have h5 : 0 ≤ (r.Items.map (itemPoints cv)).sum := by
    apply List.sum_nonneg
    intro x hx
    obtain ⟨item, hi, rfl⟩ := List.mem_map.1 hx
    have hn := hprice item hi
    cases hp : (ParseFloat item.Price).1 with
    | nan => rw [hp] at hn; simp [F64.isNonneg] at hn
    | inf b => rw [hp] at hn; simp [F64.isNonneg] at hn
    | fin u =>
      rw [hp] at hn
      simp only [F64.isNonneg, decide_eq_true_eq] at hn
      exact itemPoints_nonneg cv item u hn hp (hconv item hi)
  have h6 := dayPoints_nonneg d
  have h7 := hourPoints_nonneg ((Split r.PurchaseTime (ch ':')).headD [])
  have hval : calculatePoints cv r
      = some (retailerPoints r.Retailer + roundDollarPoints cv (ParseFloat r.Total).1
          + quarterPoints (ParseFloat r.Total).1 + ((r.Items.length / 2 * 5 : Nat) : Int)
          + (r.Items.map (itemPoints cv)).sum + dayPoints d
          + hourPoints ((Split r.PurchaseTime (ch ':')).headD [])) := by
    rw [calculatePoints_eq_pairs, hdate, Option.map_some']
    congr 1
    apply wrap64_of_range _ _ hsum
    unfold minInt64
    omega
  exact ⟨hval, _, hval, by omega⟩

/-- C16, amended, at the Target receipt: its prices are not negative, nothing
overflows, and its score is not negative. -/
theorem nonnegative_without_overflow_target :
    ∃ p : Int, calculatePoints amd64 targetReceipt = some p ∧ 0 ≤ p :=
  (nonnegative_without_overflow amd64 targetReceipt (utf8 "01") (by decide)
    (by decide!) (by decide!) (by decide!)).2

/-- C17: when the request body does not decode, `processReceipt` answers 400
with the message of `http.Error`, gives no identifier, and leaves the store as
it was, whatever `calculatePoints` would do (it is not called: the answer does
not depend on the implementation, and is not the abort of a panic). -/
theorem rejected_submission (cv : FloatConv) (decode : GoString → Option Receipt)
    (id body : GoString) (store : Store) (h : decode body = none) :
    processReceipt cv decode id body store
        = (Response.error (utf8 "Invalid request payload") StatusBadRequest, store)
    ∧ StatusBadRequest = 400
    ∧ (processReceipt cv decode id body store).1 ≠ Response.receiptResponse id
    ∧ (processReceipt cv decode id body store).1 ≠ Response.aborted
    ∧ (processReceipt cv decode id body store).2 = store := by
  have hp : processReceipt cv decode id body store
      = (Response.error (utf8 "Invalid request payload") StatusBadRequest, store) := by
    simp only [processReceipt, h]
  rw [hp]
  refine ⟨rfl, rfl, ?_, ?_, rfl⟩ <;> simp

/-- C17 for a decoder that rejects every body, against the empty store. -/
theorem rejected_submission_example :
    processReceipt amd64 (fun _ => none) (utf8 "id-1") (utf8 "not json") Store.empty
      = (Response.error (utf8 "Invalid request payload") StatusBadRequest, Store.empty) :=
  (rejected_submission amd64 (fun _ => none) (utf8 "id-1") (utf8 "not json") Store.empty
    rfl).1

/-- C18: whenever the round-dollar test gives its 50 points, the
quarter-multiple test gives its 25: the two rules of the total add 0, 25 or 75
points together, never 50, on every implementation; the score is the sum of
that and of the points of the other rules. -/
theorem round_dollar_implies_quarter (cv : FloatConv) (r : Receipt) :
    (roundDollarPoints cv (ParseFloat r.Total).1 = 50 →
        quarterPoints (ParseFloat r.Total).1 = 25)
    ∧ (roundDollarPoints cv (ParseFloat r.Total).1 + quarterPoints (ParseFloat r.Total).1 = 0
        ∨ roundDollarPoints cv (ParseFloat r.Total).1
            + quarterPoints (ParseFloat r.Total).1 = 25
        ∨ roundDollarPoints cv (ParseFloat r.Total).1
            + quarterPoints (ParseFloat r.Total).1 = 75)
    ∧ roundDollarPoints cv (ParseFloat r.Total).1 + quarterPoints (ParseFloat r.Total).1 ≠ 50
    ∧ calculatePoints cv r =
        ((Split r.PurchaseDate (ch '-'))[2]?).map (fun d =>
          wrap64 (retailerPoints r.Retailer
            + (roundDollarPoints cv (ParseFloat r.Total).1
                + quarterPoints (ParseFloat r.Total).1)
            + pairPoints r.Items + (r.Items.map (itemPoints cv)).sum + dayPoints d
            + hourPoints ((Split r.PurchaseTime (ch ':')).headD []))) := by
  have himp := quarterPoints_of_roundDollarPoints cv (ParseFloat r.Total).1
  have hrd : roundDollarPoints cv (ParseFloat r.Total).1 = 50
      ∨ roundDollarPoints cv (ParseFloat r.Total).1 = 0 := by
    unfold roundDollarPoints; split_ifs
    · exact Or.inl rfl
    · exact Or.inr rfl
  have hq : quarterPoints (ParseFloat r.Total).1 = 25
      ∨ quarterPoints (ParseFloat r.Total).1 = 0 := by
    unfold quarterPoints; split_ifs
    · exact Or.inl rfl
    · exact Or.inr rfl
  refine ⟨himp, ?_, ?_, ?_⟩
  · rcases hrd with h | h
    · right; right; rw [h, himp h]; rfl
    · rcases hq with h' | h'
      · right; left; rw [h, h']; rfl
      · left; rw [h, h']; rfl
  · rcases hrd with h | h
    · rw [h, himp h]; decide
    · rcases hq with h' | h' <;> rw [h, h'] <;> decide
  · rw [calculatePoints_eq]
    simp only [add_assoc]

/-- C19: the order of the items does not matter: a receipt whose items are a
permutation of the items of `r` has the result of `r`. -/
theorem item_order_irrelevant (cv : FloatConv) (r : Receipt) (items : List Item)
    (h : items.Perm r.Items) :
    calculatePoints cv { r with Items := items } = calculatePoints cv r :=
  calculatePoints_perm cv r items h

/-- C19 for the Target receipt with its items in reverse order. -/
theorem item_order_irrelevant_target :
    calculatePoints amd64 { targetReceipt with Items := targetReceipt.Items.reverse }
      = calculatePoints amd64 targetReceipt :=
  item_order_irrelevant amd64 targetReceipt targetReceipt.Items.reverse
    (List.reverse_perm _)

/-- C20: for every identifier, with or without slashes, the key that `getPoints`
takes from the path "/receipts/" + id + "/points" (`TrimPrefix`, then
`TrimSuffix`) is the identifier itself, so the lookup is the lookup of `id`. -/
theorem identifier_extraction (id : GoString) :
    TrimSuffix (TrimPrefix (utf8 "/receipts/" ++ id ++ utf8 "/points") (utf8 "/receipts/"))
        (utf8 "/points") = id
    ∧ (∀ (store : Store) (p : Int), store id = some p →
        getPoints (utf8 "/receipts/" ++ id ++ utf8 "/points") store
          = (Response.pointsResponse p, store))
    ∧ (∀ store : Store, store id = none →
        getPoints (utf8 "/receipts/" ++ id ++ utf8 "/points") store
          = (Response.error (utf8 "No receipt found for that ID") StatusNotFound, store)) := by
  have hx := TrimSuffix_TrimPrefix_pointsPath id
  unfold pointsPath at hx
  refine ⟨hx, fun store p h => ?_, fun store h => ?_⟩
  · exact getPoints_of_some _ store p (by rw [hx]; exact h)
  · exact getPoints_of_none _ store (by rw [hx]; exact h)

end ReceiptProcessor
